import Mathlib

/-!
# turbo-cli: entity generation and context validation

A shallow embedding of `cmd/root.go` and `internal/generator/generator.go`.

* Go strings are modelled as `List Char` (the valid UTF-8 strings); `len` is the
  UTF-8 byte length.
* The Go standard library functions the program calls (`strings.Contains`,
  `strings.Join`, `filepath.Clean`, `filepath.Join`, `filepath.Base`,
  `filepath.Dir`) are modelled for a Unix target, where the separator is `/`
  and there is no volume name.
* Everything the program obtains from outside (working directory, clock,
  embedded templates, the template engine, failures of file-system calls,
  the Unicode case tables) is a field of `Env`.
* The file system is an explicit state `FS`; every function that touches it
  returns the Go `error` (`none` is `nil`) together with the new state.
* Colours, spinners and progress messages are presentation only and are left out.
-/

set_option autoImplicit false

/-! ## Go standard library: `strings` -/

namespace strings

/-- Go `strings.HasPrefix(s, p)`: `s` begins with `p`. -/
def startsWith : List Char → List Char → Bool
  | _, [] => true
  | [], _ :: _ => false
  | c :: s, d :: p => decide (c = d) && startsWith s p

/-- Go `strings.Contains(s, substr)`: `substr` occurs somewhere within `s`. -/
def Contains : List Char → List Char → Bool
  | [], substr => substr.isEmpty
  | c :: s, substr => startsWith (c :: s) substr || Contains s substr

/-- Go `strings.Join(elems, sep)`. -/
def Join (elems : List (List Char)) (sep : List Char) : List Char :=
  List.intercalate sep elems

/-- Go `strings.ToLower(s)`: every character is mapped through `unicode.ToLower`,
which is passed in as `lower`. -/
def ToLower (lower : Char → Char) (s : List Char) : List Char :=
  s.map lower

end strings

/-- Go builtin `len` on a string: the number of bytes of its UTF-8 encoding. -/
def len (s : List Char) : Nat :=
  (s.map Char.utf8Size).sum

/-! ## Go standard library: `path/filepath` on Unix -/

namespace filepath

/-- The path elements of `path`: the pieces between consecutive `/`. -/
def splitElems : List Char → List (List Char)
  | [] => [[]]
  | c :: cs =>
    if c = '/' then [] :: splitElems cs
    else
      match splitElems cs with
      | [] => [[c]]
      | e :: es => (c :: e) :: es

/-- One step of the scan in `filepath.Clean`. `out` holds the elements written so
far, the last one first. An empty element and `.` are skipped; `..` removes the
last written element when there is one to backtrack over, is kept in front of a
path that is not rooted, and is dropped at the root; any other element is
written. -/
def cleanElem (rooted : Bool) (out : List (List Char)) (e : List Char) :
    List (List Char) :=
  if e = [] ∨ e = ['.'] then out
  else if e = ['.', '.'] then
    match out with
    | [] => if rooted then [] else [['.', '.']]
    | top :: rest =>
      if top = ['.', '.'] then
        (if rooted then top :: rest else ['.', '.'] :: top :: rest)
      else rest
  else e :: out

/-- Go `filepath.Clean(path)`: the shortest path name equivalent to `path` by
purely lexical processing. The empty path becomes `.`; the result ends in a
slash only when it is the root. -/
def Clean (path : List Char) : List Char :=
  if path = [] then ['.']
  else
    let rooted : Bool := decide (path.head? = some '/')
    let out := ((splitElems path).foldl (cleanElem rooted) []).reverse
    let s := (if rooted then ['/'] else []) ++ List.intercalate ['/'] out
    if s = [] then ['.'] else s

/-- Go `filepath.Join(elem...)`: empty leading elements are ignored, the rest is
joined with `/` and the result is cleaned; all elements empty gives the empty
string. -/
def Join (elem : List (List Char)) : List Char :=
  match elem.dropWhile (fun e => e.isEmpty) with
  | [] => []
  | e :: rest => Clean (strings.Join (e :: rest) ['/'])

/-- Go `filepath.Base(path)`: the last element of `path`, trailing slashes
removed first; `.` for the empty path and `/` for a path of slashes only. -/
def Base (path : List Char) : List Char :=
  if path = [] then ['.']
  else
    let stripped := path.reverse.dropWhile (fun c => decide (c = '/'))
    let last := (stripped.takeWhile (fun c => !decide (c = '/'))).reverse
    if last = [] then ['/'] else last

/-- Go `filepath.Dir(path)`: all but the last element of `path`, cleaned. -/
def Dir (path : List Char) : List Char :=
  Clean (path.reverse.dropWhile (fun c => !decide (c = '/'))).reverse

end filepath

/-! ## The world outside the program -/

/-- Go `generator.EntityData`: the substitution context given to a template. -/
structure EntityData where
  Name : List Char
  Package : List Char
  Timestamp : List Char
  deriving DecidableEq

/-- A call the program makes that acts on the file system, with its outcome
(`ok = true` when the call returned a nil error). -/
inductive Event where
  | mkdirAll (path : List Char) (ok : Bool)
  | create (path : List Char) (ok : Bool)
  | execute (template : List Char) (data : EntityData) (file : List Char) (ok : Bool)
  deriving DecidableEq

/-- The file-system state: the directories and the files (with their content)
that exist, and the chronological record of the calls made so far. -/
structure FS where
  dirs : List (List Char)
  files : List (List Char × List Char)
  log : List Event
  deriving DecidableEq

/-- Go `error` values the program returns, one constructor for each
`fmt.Errorf` site. -/
inductive Err where
  | getwd
  | wrongDirectory (entityType cwd : List Char)
  | mkdir (dir : List Char)
  | readTemplate (templatePath : List Char)
  | parseTemplate (templatePath : List Char)
  | createFile (file : List Char)
  | executeTemplate (templatePath : List Char)
  | createFailed (entityType name : List Char) (cause : Err)
  | nameEmpty
  | nameTooShort
  deriving DecidableEq

/-- What the program is given from outside. A file-system call may fail for
reasons the program does not control (permissions, a file in the way, a full
disk): whether it does is a function of the current state and the path. -/
structure Env where
  /-- Go `unicode.ToLower`. -/
  unicodeToLower : Char → Char
  /-- Go `os.Getwd()`; `none` when it returns an error. -/
  Getwd : Option (List Char)
  /-- Go `time.Now().Format(time.RFC3339)`. -/
  now : List Char
  /-- Whether `os.MkdirAll(path, 0755)` fails in the given state. -/
  mkdirAllFails : FS → List Char → Bool
  /-- Whether `os.Create(path)` fails in the given state. -/
  createFails : FS → List Char → Bool
  /-- The embedded template bundle, `templates.Templates.ReadFile`. -/
  Templates : List Char → Option (List Char)
  /-- Whether `template.New(name).Funcs(createTemplateFuncs()).Parse(text)` fails. -/
  parseFails : List Char → List Char → Bool
  /-- Go `tmpl.Execute(f, data)` for the template `name` parsed from `text`: the
  bytes written to `f` and whether the call returned a nil error. -/
  execute : List Char → List Char → EntityData → List Char × Bool

namespace FS

/-- The paths of the files that exist. -/
def fileNames (fs : FS) : List (List Char) :=
  fs.files.map Prod.fst

/-- The state in which the file `path` holds `content`. -/
def write (fs : FS) (path content : List Char) : FS :=
  { fs with files := (path, content) :: fs.files.filter (fun e => !decide (e.1 = path)) }

/-- The state with one more recorded call. -/
def record (fs : FS) (e : Event) : FS :=
  { fs with log := fs.log ++ [e] }

end FS

/-- The files opened by a successful `os.Create`, in the order of the calls. -/
def createdFiles (events : List Event) : List (List Char) :=
  events.filterMap fun e =>
    match e with
    | Event.create p true => some p
    | _ => none

/-- The data handed to the template executions, in the order of the calls. -/
def executedData (events : List Event) : List EntityData :=
  events.filterMap fun e =>
    match e with
    | Event.execute _ d _ _ => some d
    | _ => none

/-- The directories passed to `os.MkdirAll`, in the order of the calls. -/
def mkdirCalls (events : List Event) : List (List Char) :=
  events.filterMap fun e =>
    match e with
    | Event.mkdirAll p _ => some p
    | _ => none

namespace os

/-- Go `os.Stat(name)` returning a nil error: `name` exists. -/
def Stat (fs : FS) (name : List Char) : Bool :=
  decide (name ∈ fs.dirs) || decide (name ∈ fs.fileNames)

/-- The ancestors of `path`, nearest first, found by repeated `filepath.Dir`. -/
def parents : Nat → List Char → List (List Char)
  | 0, _ => []
  | fuel + 1, path =>
    if filepath.Dir path = path then [] else filepath.Dir path :: parents fuel (filepath.Dir path)

/-- Go `os.MkdirAll(path, 0755)`: on success `path` and all its ancestors are
directories; an already existing directory is not an error. -/
def MkdirAll (env : Env) (path : List Char) (fs : FS) : Bool × FS :=
  if env.mkdirAllFails fs path then (false, fs.record (Event.mkdirAll path false))
  else
    (true, { fs with dirs := path :: parents path.length path ++ fs.dirs }.record
      (Event.mkdirAll path true))

/-- Go `os.Create(name)`: on success the file exists and is empty (an existing
file is truncated). -/
def Create (env : Env) (name : List Char) (fs : FS) : Bool × FS :=
  if env.createFails fs name then (false, fs.record (Event.create name false))
  else (true, (fs.write name []).record (Event.create name true))

end os

/-- Go `tmpl.Execute(f, data)` on the freshly created file `file`: what the
engine wrote is the content of the file, also when it stopped with an error. -/
def templateExecute (env : Env) (name text : List Char) (data : EntityData)
    (file : List Char) (fs : FS) : Bool × FS :=
  let r := env.execute name text data
  (r.2, (fs.write file r.1).record (Event.execute name data file r.2))

/-! ## `internal/generator/generator.go` -/

/-- Go `getOutputFileName(entityType, name)`. -/
def getOutputFileName (entityType name : List Char) : List Char :=
  if entityType = "app".toList then "index.ts".toList
  else if entityType = "package".toList then "index.ts".toList
  else name ++ ".".toList ++ entityType ++ ".ts".toList

namespace Generator

/-- The output directory of `createApp` (lines 58-64). -/
def createApp.outputDir (name cwd : List Char) : List Char :=
  if strings.Contains cwd "apps".toList then filepath.Join [cwd, name]
  else filepath.Join [cwd, "apps".toList, name]

/-- The `appFiles` table of `createApp`: template path and output path. -/
def createApp.appFiles (name : List Char) : List (List Char × List Char) :=
  [ ("app/src/routes/v1/router.ts.tmpl".toList, "src/routes/v1/router.ts".toList),
    ("app/src/index.ts.tmpl".toList, "src/index.ts".toList),
    ("app/Dockerfile.tmpl".toList, "Dockerfile".toList),
    ("app/eslint.config.js.tmpl".toList, "eslint.config.js".toList),
    ("app/package.json.tmpl".toList, "package.json".toList),
    ("app/sonar-project.properties.tmpl".toList, "sonar-project.properties".toList),
    ("app/tsconfig.json.tmpl".toList, "tsconfig.json".toList),
    ("app/vitest.config.ts.tmpl".toList, "vitest.config.ts".toList),
    ("controller.tmpl".toList,
      "src/controllers/".toList ++ name ++ "/".toList ++ name ++ ".controller.ts".toList),
    ("service.tmpl".toList,
      "src/services/".toList ++ name ++ "/".toList ++ name ++ ".service.ts".toList) ]

/-- The body of the loop of `createApp` (lines 97-130) for one entry. -/
def createApp.processFile (env : Env) (outputDir : List Char) (data : EntityData)
    (file : List Char × List Char) (fs : FS) : Option Err × FS :=
  let dir := filepath.Join [outputDir, filepath.Dir file.2]
  match os.MkdirAll env dir fs with
  | (false, fs1) => (some (Err.mkdir dir), fs1)
  | (true, fs1) =>
    match env.Templates file.1 with
    | none => (some (Err.readTemplate file.1), fs1)
    | some text =>
      if env.parseFails (filepath.Base file.1) text then (some (Err.parseTemplate file.1), fs1)
      else
        let outputFile := filepath.Join [outputDir, file.2]
        match os.Create env outputFile fs1 with
        | (false, fs2) => (some (Err.createFile outputFile), fs2)
        | (true, fs2) =>
          match templateExecute env (filepath.Base file.1) text data outputFile fs2 with
          | (false, fs3) => (some (Err.executeTemplate file.1), fs3)
          | (true, fs3) => (none, fs3)

/-- The loop of `createApp` over the entries of `appFiles`: the first entry that
fails ends it. -/
def createApp.loop (env : Env) (outputDir : List Char) (data : EntityData) :
    List (List Char × List Char) → FS → Option Err × FS
  | [], fs => (none, fs)
  | file :: rest, fs =>
    match createApp.processFile env outputDir data file fs with
    | (some e, fs1) => (some e, fs1)
    | (none, fs1) => createApp.loop env outputDir data rest fs1

/-- Go `(*Generator).createApp(name, cwd, emoji)`. -/
def createApp (env : Env) (name cwd : List Char) (fs : FS) : Option Err × FS :=
  let outputDir := createApp.outputDir name cwd
  match os.MkdirAll env outputDir fs with
  | (false, fs1) => (some (Err.mkdir outputDir), fs1)
  | (true, fs1) =>
    let data : EntityData :=
      { Name := name, Package := filepath.Base outputDir, Timestamp := env.now }
    createApp.loop env outputDir data (createApp.appFiles name) fs1

/-- The output directory of `CreateEntity` (lines 171-193), `name` already
lower-cased. -/
def CreateEntity.outputDir (entityType name cwd : List Char) : List Char :=
  if entityType = "app".toList then
    (if strings.Contains cwd "apps".toList then filepath.Join [cwd, name]
     else filepath.Join [cwd, "apps".toList, name])
  else if entityType = "package".toList then
    (if strings.Contains cwd "packages".toList then filepath.Join [cwd, name, "src".toList]
     else filepath.Join [cwd, "packages".toList, name, "src".toList])
  else
    (if strings.Contains cwd "src".toList then
      filepath.Join [cwd, entityType ++ "s".toList, name]
     else filepath.Join [cwd, "src".toList, entityType ++ "s".toList, name])

/-- Go `(*Generator).CreateEntity(entityType, name)`. -/
def CreateEntity (env : Env) (entityType name : List Char) (fs : FS) : Option Err × FS :=
  match env.Getwd with
  | none => (some Err.getwd, fs)
  | some cwd =>
    let name := strings.ToLower env.unicodeToLower name
    if entityType = "app".toList then createApp env name cwd fs
    else
      let outputDir := CreateEntity.outputDir entityType name cwd
      match os.MkdirAll env outputDir fs with
      | (false, fs1) => (some (Err.mkdir outputDir), fs1)
      | (true, fs1) =>
        let data : EntityData :=
          { Name := filepath.Base name, Package := filepath.Base outputDir,
            Timestamp := env.now }
        match env.Templates (entityType ++ ".tmpl".toList) with
        | none => (some (Err.readTemplate (entityType ++ ".tmpl".toList)), fs1)
        | some text =>
          if env.parseFails (entityType ++ ".tmpl".toList) text then
            (some (Err.parseTemplate (entityType ++ ".tmpl".toList)), fs1)
          else
            let outputFileName := getOutputFileName entityType (filepath.Base name)
            let outputFile := filepath.Join [outputDir, outputFileName]
            match os.Create env outputFile fs1 with
            | (false, fs2) => (some (Err.createFile outputFile), fs2)
            | (true, fs2) =>
              match templateExecute env (entityType ++ ".tmpl".toList) text data
                  outputFile fs2 with
              | (false, fs3) => (some (Err.executeTemplate (entityType ++ ".tmpl".toList)), fs3)
              | (true, fs3) => (none, fs3)

end Generator

/-! ## `cmd/root.go` -/

/-- The `validate` closure of `runInteractiveCreation` (lines 97-105). -/
def runInteractiveCreation.validate (input : List Char) : Option Err :=
  if len input < 1 then some Err.nameEmpty
  else if len input < 3 then some Err.nameTooShort
  else none

/-- Go `isMonorepoRoot(dir)`. -/
def isMonorepoRoot (fs : FS) (dir : List Char) : Bool :=
  ["turbo.json".toList, "package.json".toList, "apps".toList, "packages".toList].any
    (fun indicator => os.Stat fs (filepath.Join [dir, indicator]))

/-- Go `validateContext(entityType)`. -/
def validateContext (env : Env) (entityType : List Char) (fs : FS) : Option Err :=
  match env.Getwd with
  | none => some Err.getwd
  | some cwd =>
    if entityType = "app".toList ∨ entityType = "package".toList then
      (if !isMonorepoRoot fs cwd && !strings.Contains cwd (entityType ++ "s".toList) then
        some (Err.wrongDirectory entityType cwd)
       else none)
    else
      (if !strings.Contains cwd "apps".toList then some (Err.wrongDirectory entityType cwd)
       else none)

/-- Go `createEntity(entityType, name)`, the function every `create` subcommand
runs with its one positional argument. -/
def createEntity (env : Env) (entityType name : List Char) (fs : FS) : Option Err × FS :=
  match validateContext env entityType fs with
  | some err => (some err, fs)
  | none =>
    match Generator.CreateEntity env entityType name fs with
    | (some err, fs1) => (some (Err.createFailed entityType name err), fs1)
    | (none, fs1) => (none, fs1)

/-! ## Definitions used to state the properties -/

/-- An ordinary path element: not empty, without a slash, and neither `.` nor `..`. -/
def filepath.isElem (e : List Char) : Bool :=
  decide (e ≠ [] ∧ '/' ∉ e ∧ e ≠ ['.'] ∧ e ≠ ['.', '.'])

/-- A directory name as `os.Getwd` reports it for a directory below the root: a
clean path that is neither `/` nor `.`. -/
def filepath.isCleanDir (dir : List Char) : Bool :=
  decide (filepath.Clean dir = dir ∧ dir ≠ ['/'] ∧ dir ≠ ['.'])

/-- The name "after trimming" in the words of the specification: the leading and
the trailing blanks, tabs and line ends removed. The program never trims a name;
this is used only to state what the specification says of the name validator. -/
def specTrimmed (s : List Char) : List Char :=
  ((s.dropWhile Char.isWhitespace).reverse.dropWhile Char.isWhitespace).reverse

/-- The five entity types of the tool. -/
def entityTypes : List (List Char) :=
  ["app".toList, "package".toList, "controller".toList, "service".toList, "middleware".toList]

/-- The output directory in the words of the specification, the parts written
one after the other with `/` between them. -/
def specOutputDir (entityType name cwd : List Char) : List Char :=
  if entityType = "app".toList then
    (if strings.Contains cwd "apps".toList then cwd ++ "/".toList ++ name
     else cwd ++ "/apps/".toList ++ name)
  else if entityType = "package".toList then
    (if strings.Contains cwd "packages".toList then cwd ++ "/".toList ++ name ++ "/src".toList
     else cwd ++ "/packages/".toList ++ name ++ "/src".toList)
  else
    (if strings.Contains cwd "src".toList then
      cwd ++ "/".toList ++ entityType ++ "s/".toList ++ name
     else cwd ++ "/src/".toList ++ entityType ++ "s/".toList ++ name)

/-- The ten output files of an app in the words of the specification, relative to
the app directory. -/
def specAppFiles (name : List Char) : List (List Char) :=
  [ "src/routes/v1/router.ts".toList, "src/index.ts".toList, "Dockerfile".toList,
    "eslint.config.js".toList, "package.json".toList, "sonar-project.properties".toList,
    "tsconfig.json".toList, "vitest.config.ts".toList,
    "src/controllers/".toList ++ name ++ "/".toList ++ name ++ ".controller.ts".toList,
    "src/services/".toList ++ name ++ "/".toList ++ name ++ ".service.ts".toList ]

/-- An environment in which no file-system call fails and every template parses
and renders. -/
def Env.cooperative (env : Env) : Prop :=
  (∀ fs path, env.mkdirAllFails fs path = false) ∧
  (∀ fs path, env.createFails fs path = false) ∧
  (∀ name text, env.parseFails name text = false) ∧
  (∀ name text data, (env.execute name text data).2 = true)

/-! ## Sample inputs -/

/-- A template bundle holding the templates the program asks for. -/
def sampleTemplates (path : List Char) : Option (List Char) :=
  if path ∈ [ "app/src/routes/v1/router.ts.tmpl".toList, "app/src/index.ts.tmpl".toList,
      "app/Dockerfile.tmpl".toList, "app/eslint.config.js.tmpl".toList,
      "app/package.json.tmpl".toList, "app/sonar-project.properties.tmpl".toList,
      "app/tsconfig.json.tmpl".toList, "app/vitest.config.ts.tmpl".toList,
      "package.tmpl".toList, "controller.tmpl".toList, "service.tmpl".toList,
      "middleware.tmpl".toList ] then
    some ("// generated from ".toList ++ path ++ " for ".toList)
  else none

/-- An environment with working directory `cwd` in which every template parses
and renders and `os.Create` fails exactly for the paths in `denied`. -/
def sampleEnv (cwd : List Char) (denied : List (List Char)) : Env :=
  { unicodeToLower := Char.toLower
    Getwd := some cwd
    now := "2024-05-01T10:00:00Z".toList
    mkdirAllFails := fun _ _ => false
    createFails := fun _ path => decide (path ∈ denied)
    Templates := sampleTemplates
    parseFails := fun _ _ => false
    execute := fun _ text data => (text ++ data.Name, true) }

/-- A monorepo root `dir` holding only its `turbo.json`. -/
def sampleRoot (dir : List Char) : FS :=
  { dirs := [dir], files := [(filepath.Join [dir, "turbo.json".toList], "{}".toList)],
    log := [] }

/-- A file system in which the directory `dir` exists and nothing else. -/
def sampleDir (dir : List Char) : FS :=
  { dirs := [dir], files := [], log := [] }

/-! ## The library functions on the cases of the Go test suite -/

theorem filepath.Clean_samples :
    filepath.Clean "abc".toList = "abc".toList ∧
    filepath.Clean "abc/def".toList = "abc/def".toList ∧
    filepath.Clean ".".toList = ".".toList ∧
    filepath.Clean "..".toList = "..".toList ∧
    filepath.Clean "../..".toList = "../..".toList ∧
    filepath.Clean "../../abc".toList = "../../abc".toList ∧
    filepath.Clean "/abc".toList = "/abc".toList ∧
    filepath.Clean "/".toList = "/".toList ∧
    filepath.Clean "".toList = ".".toList ∧
    filepath.Clean "abc/".toList = "abc".toList ∧
    filepath.Clean "abc/def/".toList = "abc/def".toList ∧
    filepath.Clean "./".toList = ".".toList ∧
    filepath.Clean "../".toList = "..".toList ∧
    filepath.Clean "../../".toList = "../..".toList ∧
    filepath.Clean "/abc/".toList = "/abc".toList ∧
    filepath.Clean "abc//def//ghi".toList = "abc/def/ghi".toList ∧
    filepath.Clean "abc//".toList = "abc".toList ∧
    filepath.Clean "//abc".toList = "/abc".toList ∧
    filepath.Clean "///".toList = "/".toList ∧
    filepath.Clean "abc/./def".toList = "abc/def".toList ∧
    filepath.Clean "/./abc/def".toList = "/abc/def".toList ∧
    filepath.Clean "abc/.".toList = "abc".toList ∧
    filepath.Clean "abc/def/ghi/../jkl".toList = "abc/def/jkl".toList ∧
    filepath.Clean "abc/def/../ghi/../jkl".toList = "abc/jkl".toList ∧
    filepath.Clean "abc/def/..".toList = "abc".toList ∧
    filepath.Clean "abc/def/../..".toList = ".".toList ∧
    filepath.Clean "/abc/def/../..".toList = "/".toList ∧
    filepath.Clean "abc/def/../../..".toList = "..".toList ∧
    filepath.Clean "/abc/def/../../..".toList = "/".toList ∧
    filepath.Clean "abc/def/../../../ghi/jkl/../../../mno".toList = "../../mno".toList ∧
    filepath.Clean "/../abc".toList = "/abc".toList ∧
    filepath.Clean "a/../b:/../../c".toList = "../c".toList ∧
    filepath.Clean "abc/./../def".toList = "def".toList ∧
    filepath.Clean "abc//./../def".toList = "def".toList ∧
    filepath.Clean "abc/../../././../def".toList = "../../def".toList := by
  decide

theorem filepath.Join_samples :
    filepath.Join [] = "".toList ∧
    filepath.Join ["".toList] = "".toList ∧
    filepath.Join ["/".toList] = "/".toList ∧
    filepath.Join ["a".toList] = "a".toList ∧
    filepath.Join ["a".toList, "b".toList] = "a/b".toList ∧
    filepath.Join ["a".toList, "".toList] = "a".toList ∧
    filepath.Join ["".toList, "b".toList] = "b".toList ∧
    filepath.Join ["/".toList, "a".toList] = "/a".toList ∧
    filepath.Join ["/".toList, "".toList] = "/".toList ∧
    filepath.Join ["/a".toList, "b".toList] = "/a/b".toList ∧
    filepath.Join ["a".toList, "/b".toList] = "a/b".toList ∧
    filepath.Join ["/a".toList, "/b".toList] = "/a/b".toList ∧
    filepath.Join ["a/".toList, "b".toList] = "a/b".toList ∧
    filepath.Join ["a/".toList, "".toList] = "a".toList ∧
    filepath.Join ["".toList, "".toList] = "".toList ∧
    filepath.Join ["/".toList, "a".toList, "b".toList] = "/a/b".toList ∧
    filepath.Join ["a".toList, "".toList, "c".toList] = "a/c".toList ∧
    filepath.Join ["a".toList, "../..".toList] = "..".toList := by
  decide

theorem filepath.Base_Dir_samples :
    filepath.Base "".toList = ".".toList ∧
    filepath.Base ".".toList = ".".toList ∧
    filepath.Base "/.".toList = ".".toList ∧
    filepath.Base "/".toList = "/".toList ∧
    filepath.Base "////".toList = "/".toList ∧
    filepath.Base "x/".toList = "x".toList ∧
    filepath.Base "abc".toList = "abc".toList ∧
    filepath.Base "abc/def".toList = "def".toList ∧
    filepath.Base "a/b/.x".toList = ".x".toList ∧
    filepath.Base "a/b/c.".toList = "c.".toList ∧
    filepath.Base "a/b/c.x".toList = "c.x".toList ∧
    filepath.Dir "".toList = ".".toList ∧
    filepath.Dir ".".toList = ".".toList ∧
    filepath.Dir "/.".toList = "/".toList ∧
    filepath.Dir "/".toList = "/".toList ∧
    filepath.Dir "////".toList = "/".toList ∧
    filepath.Dir "/foo".toList = "/".toList ∧
    filepath.Dir "x/".toList = "x".toList ∧
    filepath.Dir "abc".toList = ".".toList ∧
    filepath.Dir "abc/def".toList = "abc".toList ∧
    filepath.Dir "a/b/.x".toList = "a/b".toList ∧
    filepath.Dir "a/b/c.".toList = "a/b".toList ∧
    filepath.Dir "a/b/c.x".toList = "a/b".toList ∧
    filepath.Dir "src/routes/v1/router.ts".toList = "src/routes/v1".toList ∧
    filepath.Dir "Dockerfile".toList = ".".toList := by
  decide

theorem strings.Contains_samples :
    strings.Contains "/repo/apps/orders".toList "apps".toList = true ∧
    strings.Contains "/srv/my-apps-backup".toList "apps".toList = true ∧
    strings.Contains "/repo/app/orders".toList "apps".toList = false ∧
    strings.Contains "/repo".toList "".toList = true ∧
    strings.Contains "".toList "src".toList = false := by
  decide

/-! ## Library facts -/

theorem strings.startsWith_iff (s p : List Char) :
    strings.startsWith s p = true ↔ p <+: s := by
  induction s generalizing p with
  | nil =>
    cases p with
    | nil => simp [strings.startsWith]
    | cons d p => simp [strings.startsWith]
  | cons c s ih =>
    cases p with
    | nil => simp [strings.startsWith]
    | cons d p =>
      simp only [strings.startsWith, Bool.and_eq_true, decide_eq_true_eq, ih, List.cons_prefix_cons]
      constructor
      · rintro ⟨h1, h2⟩; exact ⟨h1.symm, h2⟩
      · rintro ⟨h1, h2⟩; exact ⟨h1.symm, h2⟩

/-- The call `strings.Contains s substr` holds exactly when `substr` is a contiguous
part of `s`. -/
theorem strings.Contains_iff (s substr : List Char) :
    strings.Contains s substr = true ↔ substr <:+: s := by
  induction s with
  | nil =>
    cases substr <;> simp [strings.Contains]
  | cons c s ih =>
    rw [strings.Contains, Bool.or_eq_true, ih, strings.startsWith_iff, List.infix_cons_iff]

/-! ## Effects of the file-system calls -/

theorem FS.mem_fileNames_write (fs : FS) (path content p : List Char)
    (h : p ∈ fs.fileNames) : p ∈ (fs.write path content).fileNames := by
  unfold FS.fileNames FS.write
  by_cases hp : p = path
  · simp [hp]
  · obtain ⟨e, he, rfl⟩ := List.mem_map.mp h
    simp only [List.map_cons, List.mem_cons]
    right
    exact List.mem_map.mpr ⟨e, List.mem_filter.mpr ⟨he, by simpa using hp⟩, rfl⟩

theorem FS.self_mem_fileNames_write (fs : FS) (path content : List Char) :
    path ∈ (fs.write path content).fileNames := by
  simp [FS.fileNames, FS.write]

theorem os.MkdirAll_log (env : Env) (path : List Char) (fs : FS) :
    (os.MkdirAll env path fs).2.log =
      fs.log ++ [Event.mkdirAll path (os.MkdirAll env path fs).1] := by
  unfold os.MkdirAll
  split <;> simp [FS.record]

theorem os.MkdirAll_fileNames (env : Env) (path : List Char) (fs : FS) :
    (os.MkdirAll env path fs).2.fileNames = fs.fileNames := by
  unfold os.MkdirAll
  split <;> simp [FS.record, FS.fileNames]

theorem os.MkdirAll_dirs (env : Env) (path : List Char) (fs : FS) (d : List Char)
    (h : d ∈ fs.dirs) : d ∈ (os.MkdirAll env path fs).2.dirs := by
  unfold os.MkdirAll
  split <;> simp [FS.record, h]

theorem os.MkdirAll_self (env : Env) (path : List Char) (fs : FS)
    (h : (os.MkdirAll env path fs).1 = true) : path ∈ (os.MkdirAll env path fs).2.dirs := by
  unfold os.MkdirAll at h ⊢
  split <;> simp_all [FS.record]

theorem os.Create_log (env : Env) (name : List Char) (fs : FS) :
    (os.Create env name fs).2.log = fs.log ++ [Event.create name (os.Create env name fs).1] := by
  unfold os.Create
  split <;> simp [FS.record, FS.write]

theorem os.Create_fileNames (env : Env) (name : List Char) (fs : FS) (p : List Char)
    (h : p ∈ fs.fileNames) : p ∈ (os.Create env name fs).2.fileNames := by
  unfold os.Create
  split
  · simpa [FS.record, FS.fileNames] using h
  · exact FS.mem_fileNames_write fs name [] p h

theorem os.Create_dirs (env : Env) (name : List Char) (fs : FS) :
    (os.Create env name fs).2.dirs = fs.dirs := by
  unfold os.Create
  split <;> simp [FS.record, FS.write]

theorem templateExecute_log (env : Env) (name text : List Char) (data : EntityData)
    (file : List Char) (fs : FS) :
    (templateExecute env name text data file fs).2.log =
      fs.log ++ [Event.execute name data file (templateExecute env name text data file fs).1] := by
  simp [templateExecute, FS.record, FS.write]

theorem templateExecute_fileNames (env : Env) (name text : List Char) (data : EntityData)
    (file : List Char) (fs : FS) (p : List Char) (h : p ∈ fs.fileNames) :
    p ∈ (templateExecute env name text data file fs).2.fileNames :=
  FS.mem_fileNames_write fs file _ p h

theorem templateExecute_self (env : Env) (name text : List Char) (data : EntityData)
    (file : List Char) (fs : FS) :
    file ∈ (templateExecute env name text data file fs).2.fileNames :=
  FS.self_mem_fileNames_write fs file _

theorem templateExecute_dirs (env : Env) (name text : List Char) (data : EntityData)
    (file : List Char) (fs : FS) :
    (templateExecute env name text data file fs).2.dirs = fs.dirs := by
  simp [templateExecute, FS.record, FS.write]

/-! ## One entry of the app template list -/

/-- What one iteration of the loop of `createApp` does, whatever its outcome: the
calls it records, and that nothing on disk is removed. -/
theorem Generator.createApp.processFile_spec (env : Env) (outputDir : List Char)
    (data : EntityData) (file : List Char × List Char) (fs : FS) :
    ∃ events,
      (Generator.createApp.processFile env outputDir data file fs).2.log = fs.log ++ events ∧
      mkdirCalls events = [filepath.Join [outputDir, filepath.Dir file.2]] ∧
      (createdFiles events = [] ∨ createdFiles events = [filepath.Join [outputDir, file.2]]) ∧
      (∀ d ∈ executedData events, d = data) ∧
      ((Generator.createApp.processFile env outputDir data file fs).1 = none →
        createdFiles events = [filepath.Join [outputDir, file.2]] ∧
        executedData events = [data] ∧
        filepath.Join [outputDir, file.2] ∈
          (Generator.createApp.processFile env outputDir data file fs).2.fileNames) ∧
      (∀ e, (Generator.createApp.processFile env outputDir data file fs).1 = some e →
        (createdFiles events = [] ∧
          (e = Err.mkdir (filepath.Join [outputDir, filepath.Dir file.2]) ∨
           e = Err.readTemplate file.1 ∨ e = Err.parseTemplate file.1 ∨
           e = Err.createFile (filepath.Join [outputDir, file.2]))) ∨
        (createdFiles events = [filepath.Join [outputDir, file.2]] ∧
          e = Err.executeTemplate file.1)) ∧
      (∀ p ∈ fs.fileNames,
        p ∈ (Generator.createApp.processFile env outputDir data file fs).2.fileNames) ∧
      (∀ d ∈ fs.dirs, d ∈ (Generator.createApp.processFile env outputDir data file fs).2.dirs) := by
  unfold Generator.createApp.processFile
  simp only []
  have hm_log := os.MkdirAll_log env (filepath.Join [outputDir, filepath.Dir file.2]) fs
  have hm_files := os.MkdirAll_fileNames env (filepath.Join [outputDir, filepath.Dir file.2]) fs
  have hm_dirs := os.MkdirAll_dirs env (filepath.Join [outputDir, filepath.Dir file.2]) fs
  rcases hm : os.MkdirAll env (filepath.Join [outputDir, filepath.Dir file.2]) fs with ⟨ok1, fs1⟩
  rw [hm] at hm_log hm_files hm_dirs
  simp only at hm_log hm_files hm_dirs
  cases ok1 with
  | false =>
    refine ⟨_, hm_log, ?_⟩
    simp only [mkdirCalls, createdFiles, executedData]
    exact ⟨by simp, by simp, by simp, by simp, by simp, by simp [hm_files], hm_dirs⟩
  | true =>
    simp only []
    cases ht : env.Templates file.1 with
    | none =>
      refine ⟨_, hm_log, ?_⟩
      simp only [mkdirCalls, createdFiles, executedData]
      exact ⟨by simp, by simp, by simp, by simp, by simp, by simp [hm_files], hm_dirs⟩
    | some text =>
      simp only []
      by_cases hp : env.parseFails (filepath.Base file.1) text = true
      · rw [if_pos hp]
        refine ⟨_, hm_log, ?_⟩
        simp only [mkdirCalls, createdFiles, executedData]
        exact ⟨by simp, by simp, by simp, by simp, by simp, by simp [hm_files], hm_dirs⟩
      · rw [if_neg hp]
        have hc_log := os.Create_log env (filepath.Join [outputDir, file.2]) fs1
        have hc_files := os.Create_fileNames env (filepath.Join [outputDir, file.2]) fs1
        have hc_dirs := os.Create_dirs env (filepath.Join [outputDir, file.2]) fs1
        rcases hc : os.Create env (filepath.Join [outputDir, file.2]) fs1 with ⟨ok2, fs2⟩
        rw [hc] at hc_log hc_files hc_dirs
        simp only at hc_log hc_files hc_dirs
        cases ok2 with
        | false =>
          refine ⟨_, by rw [hc_log, hm_log, List.append_assoc], ?_⟩
          simp only [mkdirCalls, createdFiles, executedData]
          refine ⟨by simp, by simp, by simp, by simp, by simp, ?_, ?_⟩
          · intro p hp; exact hc_files p (hm_files ▸ hp)
          · intro d hd; rw [hc_dirs]; exact hm_dirs d hd
        | true =>
          simp only []
          have he_log := templateExecute_log env (filepath.Base file.1) text data
            (filepath.Join [outputDir, file.2]) fs2
          have he_files := templateExecute_fileNames env (filepath.Base file.1) text data
            (filepath.Join [outputDir, file.2]) fs2
          have he_self := templateExecute_self env (filepath.Base file.1) text data
            (filepath.Join [outputDir, file.2]) fs2
          have he_dirs := templateExecute_dirs env (filepath.Base file.1) text data
            (filepath.Join [outputDir, file.2]) fs2
          rcases he : templateExecute env (filepath.Base file.1) text data
            (filepath.Join [outputDir, file.2]) fs2 with ⟨ok3, fs3⟩
          rw [he] at he_log he_files he_self he_dirs
          simp only at he_log he_files he_self he_dirs
          have hlog : fs3.log = fs.log ++ [Event.mkdirAll (filepath.Join [outputDir, filepath.Dir file.2]) true,
              Event.create (filepath.Join [outputDir, file.2]) true,
              Event.execute (filepath.Base file.1) data (filepath.Join [outputDir, file.2]) ok3] := by
            rw [he_log, hc_log, hm_log]; simp
          have hfiles : ∀ p ∈ fs.fileNames, p ∈ fs3.fileNames := by
            intro p hp; exact he_files p (hc_files p (hm_files ▸ hp))
          have hdirs : ∀ d ∈ fs.dirs, d ∈ fs3.dirs := by
            intro d hd; rw [he_dirs, hc_dirs]; exact hm_dirs d hd
          cases ok3 with
          | false =>
            refine ⟨_, hlog, ?_⟩
            simp only [mkdirCalls, createdFiles, executedData]
            exact ⟨by simp, by simp, by simp, by simp, by simp, hfiles, hdirs⟩
          | true =>
            refine ⟨_, hlog, ?_⟩
            simp only [mkdirCalls, createdFiles, executedData]
            exact ⟨by simp, by simp, by simp, by simp [he_self], by simp, hfiles, hdirs⟩

/-! ## The loop over the app template list -/

theorem createdFiles_append (a b : List Event) :
    createdFiles (a ++ b) = createdFiles a ++ createdFiles b := by
  simp [createdFiles]

theorem executedData_append (a b : List Event) :
    executedData (a ++ b) = executedData a ++ executedData b := by
  simp [executedData]

theorem mkdirCalls_append (a b : List Event) :
    mkdirCalls (a ++ b) = mkdirCalls a ++ mkdirCalls b := by
  simp [mkdirCalls]

/-- The loop stops at the first entry that fails: the entries after it play no
part in the result. -/
theorem Generator.createApp.loop_abort (env : Env) (outputDir : List Char) (data : EntityData)
    (pre : List (List Char × List Char)) (file : List Char × List Char)
    (post : List (List Char × List Char)) (fs fsk fs' : FS) (e : Err)
    (hpre : Generator.createApp.loop env outputDir data pre fs = (none, fsk))
    (hfail : Generator.createApp.processFile env outputDir data file fsk = (some e, fs')) :
    Generator.createApp.loop env outputDir data (pre ++ file :: post) fs = (some e, fs') := by
  induction pre generalizing fs with
  | nil =>
    simp only [Generator.createApp.loop, Prod.mk.injEq, true_and] at hpre
    subst hpre
    simp [Generator.createApp.loop, hfail]
  | cons f rest ih =>
    simp only [Generator.createApp.loop, List.cons_append] at hpre ⊢
    rcases hf : Generator.createApp.processFile env outputDir data f fs with ⟨r, fs1⟩
    rw [hf] at hpre
    cases r with
    | some e1 => simp at hpre
    | none => exact ih fs1 hpre

/-- A run of the loop that ends without error has processed every entry. -/
theorem Generator.createApp.loop_ok (env : Env) (outputDir : List Char) (data : EntityData)
    (files : List (List Char × List Char)) (fs fs' : FS)
    (h : Generator.createApp.loop env outputDir data files fs = (none, fs')) :
    ∃ events, fs'.log = fs.log ++ events ∧
      createdFiles events = files.map (fun f => filepath.Join [outputDir, f.2]) ∧
      executedData events = files.map (fun _ => data) ∧
      (∀ f ∈ files, filepath.Join [outputDir, f.2] ∈ fs'.fileNames) ∧
      (∀ p ∈ fs.fileNames, p ∈ fs'.fileNames) ∧
      (∀ d ∈ fs.dirs, d ∈ fs'.dirs) ∧
      mkdirCalls events =
        files.map (fun f => filepath.Join [outputDir, filepath.Dir f.2]) := by
  induction files generalizing fs with
  | nil =>
    simp only [Generator.createApp.loop, Prod.mk.injEq, true_and] at h
    subst h
    exact ⟨[], by simp, by simp [createdFiles], by simp [executedData], by simp,
      fun _ hp => hp, fun _ hd => hd, by simp [mkdirCalls]⟩
  | cons f rest ih =>
    simp only [Generator.createApp.loop] at h
    obtain ⟨ev1, hlog1, hmk1, -, -, hok1, -, hfiles1, hdirs1⟩ :=
      Generator.createApp.processFile_spec env outputDir data f fs
    rcases hf : Generator.createApp.processFile env outputDir data f fs with ⟨r, fs1⟩
    rw [hf] at h hlog1 hok1 hfiles1 hdirs1
    cases r with
    | some e1 => simp at h
    | none =>
      simp only at h hlog1 hok1 hfiles1 hdirs1
      obtain ⟨hc1, hd1, hself1⟩ := hok1 trivial
      obtain ⟨ev2, hlog2, hc2, hd2, hall2, hfiles2, hdirs2, hmk2⟩ := ih fs1 h
      refine ⟨ev1 ++ ev2, by rw [hlog2, hlog1, List.append_assoc], ?_, ?_, ?_, ?_, ?_, ?_⟩
      · rw [createdFiles_append, hc1, hc2]; rfl
      · rw [executedData_append, hd1, hd2]; rfl
      · intro g hg
        rcases List.mem_cons.mp hg with rfl | hg
        · exact hfiles2 _ hself1
        · exact hall2 g hg
      · intro p hp; exact hfiles2 p (hfiles1 p hp)
      · intro d hd; exact hdirs2 d (hdirs1 d hd)
      · rw [mkdirCalls_append, hmk1, hmk2]; rfl

/-- Whatever its outcome, the loop only adds to the record of calls and hands
the same data to every template. -/
theorem Generator.createApp.loop_data (env : Env) (outputDir : List Char) (data : EntityData)
    (files : List (List Char × List Char)) (fs : FS) :
    ∃ events, (Generator.createApp.loop env outputDir data files fs).2.log = fs.log ++ events ∧
      (∀ d ∈ executedData events, d = data) := by
  induction files generalizing fs with
  | nil => exact ⟨[], by simp [Generator.createApp.loop], by simp [executedData]⟩
  | cons f rest ih =>
    simp only [Generator.createApp.loop]
    obtain ⟨ev1, hlog1, -, -, hdata1, -, -, -, -⟩ :=
      Generator.createApp.processFile_spec env outputDir data f fs
    rcases hf : Generator.createApp.processFile env outputDir data f fs with ⟨r, fs1⟩
    rw [hf] at hlog1
    cases r with
    | some e1 => exact ⟨ev1, hlog1, hdata1⟩
    | none =>
      simp only at hlog1 ⊢
      obtain ⟨ev2, hlog2, hdata2⟩ := ih fs1
      refine ⟨ev1 ++ ev2, by rw [hlog2, hlog1, List.append_assoc], ?_⟩
      intro d hd
      rw [executedData_append] at hd
      rcases List.mem_append.mp hd with hd | hd
      · exact hdata1 d hd
      · exact hdata2 d hd

/-! ## Facts about `filepath.Clean`, `filepath.Join` and `filepath.Base` -/

theorem filepath.isElem_iff (e : List Char) :
    filepath.isElem e = true ↔ e ≠ [] ∧ '/' ∉ e ∧ e ≠ ['.'] ∧ e ≠ ['.', '.'] := by
  unfold filepath.isElem
  exact decide_eq_true_iff

theorem filepath.splitElems_ne_nil (p : List Char) : filepath.splitElems p ≠ [] := by
  cases p with
  | nil => simp [filepath.splitElems]
  | cons c cs =>
    unfold filepath.splitElems
    split
    · simp
    · split <;> simp

theorem filepath.splitElems_append_slash (q r : List Char) :
    filepath.splitElems (q ++ '/' :: r) = filepath.splitElems q ++ filepath.splitElems r := by
  induction q with
  | nil => simp [filepath.splitElems]
  | cons c q ih =>
    by_cases hc : c = '/'
    · simp [filepath.splitElems, hc, ih]
    · simp only [List.cons_append, filepath.splitElems, if_neg hc, List.append_eq]
      rw [ih]
      cases hq : filepath.splitElems q with
      | nil => exact absurd hq (filepath.splitElems_ne_nil q)
      | cons e es => simp

theorem filepath.splitElems_of_no_slash (e : List Char) (h : '/' ∉ e) :
    filepath.splitElems e = [e] := by
  induction e with
  | nil => rfl
  | cons c e ih =>
    have hc : c ≠ '/' := fun hc => h (by simp [hc])
    have he : '/' ∉ e := fun he => h (List.mem_cons_of_mem _ he)
    simp [filepath.splitElems, hc, ih he]

theorem filepath.intercalate_cons_cons (sep a b : List Char) (rest : List (List Char)) :
    List.intercalate sep (a :: b :: rest) = a ++ sep ++ List.intercalate sep (b :: rest) := by
  simp [List.intercalate, List.intersperse]

theorem filepath.intercalate_singleton (sep a : List Char) :
    List.intercalate sep [a] = a := by
  simp [List.intercalate, List.intersperse]

theorem filepath.intercalate_append (sep : List Char) (xs ys : List (List Char))
    (hx : xs ≠ []) (hy : ys ≠ []) :
    List.intercalate sep (xs ++ ys) =
      List.intercalate sep xs ++ sep ++ List.intercalate sep ys := by
  induction xs with
  | nil => exact absurd rfl hx
  | cons a xs ih =>
    cases xs with
    | nil =>
      cases ys with
      | nil => exact absurd rfl hy
      | cons b ys =>
        simp [filepath.intercalate_cons_cons, filepath.intercalate_singleton]
    | cons a2 xs =>
      have := ih (by simp)
      simp only [List.cons_append] at this ⊢
      rw [filepath.intercalate_cons_cons, this, filepath.intercalate_cons_cons]
      simp

theorem filepath.intercalate_splitElems (p : List Char) :
    List.intercalate ['/'] (filepath.splitElems p) = p := by
  induction p with
  | nil => simp [filepath.splitElems, List.intercalate, List.intersperse]
  | cons c p ih =>
    by_cases hc : c = '/'
    · simp only [filepath.splitElems, if_pos hc]
      cases hp : filepath.splitElems p with
      | nil => exact absurd hp (filepath.splitElems_ne_nil p)
      | cons e es =>
        rw [hp] at ih
        rw [filepath.intercalate_cons_cons, ih, hc]; rfl
    · simp only [filepath.splitElems, if_neg hc]
      cases hp : filepath.splitElems p with
      | nil => exact absurd hp (filepath.splitElems_ne_nil p)
      | cons e es =>
        rw [hp] at ih
        simp only []
        cases es with
        | nil =>
          rw [filepath.intercalate_singleton] at ih ⊢
          rw [ih]
        | cons e2 es =>
          rw [filepath.intercalate_cons_cons] at ih ⊢
          rw [← ih]; simp

theorem filepath.cleanElem_of_isElem (rooted : Bool) (out : List (List Char)) (e : List Char)
    (h : filepath.isElem e = true) : filepath.cleanElem rooted out e = e :: out := by
  obtain ⟨h1, -, h3, h4⟩ := (filepath.isElem_iff e).mp h
  simp [filepath.cleanElem, h1, h3, h4]

theorem filepath.foldl_cleanElem_of_isElem (rooted : Bool) (out : List (List Char))
    (es : List (List Char)) (h : ∀ e ∈ es, filepath.isElem e = true) :
    es.foldl (filepath.cleanElem rooted) out = es.reverse ++ out := by
  induction es generalizing out with
  | nil => rfl
  | cons e es ih =>
    rw [List.foldl_cons, filepath.cleanElem_of_isElem rooted out e (h e (by simp)),
      ih _ (fun x hx => h x (List.mem_cons_of_mem _ hx))]
    simp

/-- The value of `filepath.Clean` on a non-empty path, in terms of the elements it keeps. -/
theorem filepath.Clean_eq (p : List Char) (hp : p ≠ []) :
    filepath.Clean p =
      if (if decide (p.head? = some '/') = true then ['/'] else []) ++
          List.intercalate ['/']
            ((filepath.splitElems p).foldl
              (filepath.cleanElem (decide (p.head? = some '/'))) []).reverse = []
      then ['.']
      else (if decide (p.head? = some '/') = true then ['/'] else []) ++
          List.intercalate ['/']
            ((filepath.splitElems p).foldl
              (filepath.cleanElem (decide (p.head? = some '/'))) []).reverse := by
  unfold filepath.Clean
  rw [if_neg hp]

theorem filepath.Clean_ne_nil (p : List Char) : filepath.Clean p ≠ [] := by
  by_cases hp : p = []
  · simp [hp, filepath.Clean]
  · rw [filepath.Clean_eq p hp]
    split_ifs <;> first | assumption | simp

/-- Appending ordinary elements to a clean path other than `/` and `.` gives a
clean path: `filepath.Clean` leaves it as it is. -/
theorem filepath.Clean_append_rel (x r : List Char) (hx : filepath.Clean x = x)
    (hroot : x ≠ ['/']) (hdot : x ≠ ['.'])
    (hr : ∀ e ∈ filepath.splitElems r, filepath.isElem e = true) :
    filepath.Clean (x ++ '/' :: r) = x ++ '/' :: r := by
  have hx0 : x ≠ [] := by
    intro h; rw [h] at hx; simp [filepath.Clean] at hx
  have hhead : (x ++ '/' :: r).head? = x.head? := by
    cases x with
    | nil => exact absurd rfl hx0
    | cons c x => rfl
  rw [filepath.Clean_eq x hx0] at hx
  rw [filepath.Clean_eq _ (by simp), hhead, filepath.splitElems_append_slash, List.foldl_append,
    filepath.foldl_cleanElem_of_isElem _ _ _ hr]
  generalize hS : (filepath.splitElems x).foldl
    (filepath.cleanElem (decide (x.head? = some '/'))) [] = S at hx ⊢
  generalize hroot' : (if decide (x.head? = some '/') = true then ['/'] else ([] : List Char)) = root
    at hx ⊢
  have hSne : S ≠ [] := by
    intro h
    subst h
    simp only [List.reverse_nil, List.intercalate, List.intersperse, List.flatten, List.append_nil]
      at hx
    by_cases hd : decide (x.head? = some '/') = true
    · rw [if_pos hd] at hroot'
      subst hroot'
      simp at hx
      exact hroot hx.symm
    · rw [if_neg hd] at hroot'
      subst hroot'
      simp at hx
      exact hdot hx.symm
  have hs0 : root ++ List.intercalate ['/'] S.reverse = x := by
    by_cases h0 : root ++ List.intercalate ['/'] S.reverse = []
    · rw [if_pos h0] at hx; exact absurd hx.symm hdot
    · rw [if_neg h0] at hx; exact hx
  have hjoin : root ++ List.intercalate ['/'] ((filepath.splitElems r).reverse ++ S).reverse =
      x ++ '/' :: r := by
    rw [List.reverse_append, List.reverse_reverse,
      filepath.intercalate_append _ _ _ (by simpa using hSne) (filepath.splitElems_ne_nil r),
      filepath.intercalate_splitElems, ← List.append_assoc, ← List.append_assoc, hs0]
    simp
  rw [hjoin, if_neg (by simp)]

/-- A path whose last element is ordinary keeps it as its last element when
cleaned. -/
theorem filepath.Clean_last_elem (p e : List Char) (hp : p = [] ∨ ∃ q, p = q ++ ['/'])
    (he : filepath.isElem e = true) :
    ∃ w, (w = [] ∨ ∃ v, w = v ++ ['/']) ∧ filepath.Clean (p ++ e) = w ++ e := by
  obtain ⟨he0, hes, -, -⟩ := (filepath.isElem_iff e).mp he
  rcases hp with rfl | ⟨q, rfl⟩
  · refine ⟨[], Or.inl rfl, ?_⟩
    have hhead : decide (e.head? = some '/') = false := by
      cases e with
      | nil => exact absurd rfl he0
      | cons c e =>
        have : c ≠ '/' := fun hc => hes (by simp [hc])
        simpa using this
    rw [List.nil_append, filepath.Clean_eq e he0, hhead, filepath.splitElems_of_no_slash e hes]
    simp [filepath.cleanElem_of_isElem _ _ _ he, filepath.intercalate_singleton, he0]
  · have hne : q ++ ['/'] ++ e ≠ [] := by simp
    rw [filepath.Clean_eq _ hne]
    have hsplit : filepath.splitElems (q ++ ['/'] ++ e) = filepath.splitElems q ++ [e] := by
      rw [List.append_assoc, List.singleton_append, filepath.splitElems_append_slash,
        filepath.splitElems_of_no_slash e hes]
    rw [hsplit, List.foldl_append, List.foldl_cons, List.foldl_nil,
      filepath.cleanElem_of_isElem _ _ _ he, List.reverse_cons]
    generalize (filepath.splitElems q).foldl
      (filepath.cleanElem (decide ((q ++ ['/'] ++ e).head? = some '/'))) [] = S
    have hroot : (if decide ((q ++ ['/'] ++ e).head? = some '/') = true then ['/']
        else ([] : List Char)) = [] ∨
        ∃ v, (if decide ((q ++ ['/'] ++ e).head? = some '/') = true then ['/']
        else ([] : List Char)) = v ++ ['/'] := by
      split
      · exact Or.inr ⟨[], rfl⟩
      · exact Or.inl rfl
    generalize (if decide ((q ++ ['/'] ++ e).head? = some '/') = true then ['/']
      else ([] : List Char)) = root at hroot ⊢
    by_cases hS : S = []
    · subst hS
      refine ⟨root, hroot, ?_⟩
      simp [filepath.intercalate_singleton, he0]
    · refine ⟨root ++ List.intercalate ['/'] S.reverse ++ ['/'], Or.inr ⟨_, rfl⟩, ?_⟩
      rw [filepath.intercalate_append _ _ _ (by simpa using hS) (by simp),
        filepath.intercalate_singleton]
      simp [he0]

/-- The base name of a path that ends in an ordinary element is that element. -/
theorem filepath.Base_last_elem (w e : List Char) (hw : w = [] ∨ ∃ v, w = v ++ ['/'])
    (he : filepath.isElem e = true) : filepath.Base (w ++ e) = e := by
  obtain ⟨he0, hes, -, -⟩ := (filepath.isElem_iff e).mp he
  have hrev : e.reverse ≠ [] := by simpa using he0
  have hdrop : ∀ t : List Char, (e.reverse ++ t).dropWhile (fun c => decide (c = '/')) =
      e.reverse ++ t := by
    intro t
    cases h : e.reverse with
    | nil => exact absurd h hrev
    | cons c cs =>
      have hc : c ∈ e := by
        have : c ∈ e.reverse := by rw [h]; simp
        simpa using this
      have : c ≠ '/' := fun hc' => hes (hc' ▸ hc)
      simp [List.dropWhile, this]
  have htake : ∀ t : List Char, (t = [] ∨ ∃ u, t = '/' :: u) →
      (e.reverse ++ t).takeWhile (fun c => !decide (c = '/')) = e.reverse := by
    intro t ht
    have hall : ∀ c ∈ e.reverse, (!decide (c = '/')) = true := by
      intro c hc
      have : c ≠ '/' := fun hc' => hes (by simpa [hc'] using hc)
      simpa using this
    rcases ht with rfl | ⟨u, rfl⟩
    · rw [List.append_nil]
      exact List.takeWhile_eq_self_iff.mpr hall
    · rw [List.takeWhile_append_of_pos hall]
      simp
  unfold filepath.Base
  rw [if_neg (by simp [he0])]
  simp only [List.reverse_append]
  rw [hdrop, htake, List.reverse_reverse, if_neg he0]
  rcases hw with rfl | ⟨v, rfl⟩
  · exact Or.inl rfl
  · exact Or.inr ⟨v.reverse, by simp⟩

/-- A call of `filepath.Join` with a non-empty first element cleans the elements joined
with `/`. -/
theorem filepath.Join_cons (x : List Char) (rest : List (List Char)) (hx : x ≠ []) :
    filepath.Join (x :: rest) = filepath.Clean (List.intercalate ['/'] (x :: rest)) := by
  cases x with
  | nil => exact absurd rfl hx
  | cons c x => simp [filepath.Join, strings.Join, List.dropWhile]

/-- Joining a relative path made of ordinary elements to a clean directory other
than `/` and `.` is plain concatenation with a slash. -/
theorem filepath.Join_pair (x r : List Char) (hx : filepath.Clean x = x)
    (hroot : x ≠ ['/']) (hdot : x ≠ ['.'])
    (hr : ∀ e ∈ filepath.splitElems r, filepath.isElem e = true) :
    filepath.Join [x, r] = x ++ '/' :: r := by
  have hx0 : x ≠ [] := by
    intro h; rw [h] at hx; simp [filepath.Clean] at hx
  rw [filepath.Join_cons x [r] hx0, filepath.intercalate_cons_cons,
    filepath.intercalate_singleton, List.append_assoc, List.singleton_append]
  exact filepath.Clean_append_rel x r hx hroot hdot hr

/-- The last element given to `filepath.Join`, when it is an ordinary element,
is the base name of the result. -/
theorem filepath.Base_Join_last (xs : List (List Char)) (e : List Char)
    (he : filepath.isElem e = true) : filepath.Base (filepath.Join (xs ++ [e])) = e := by
  obtain ⟨he0, -, -, -⟩ := (filepath.isElem_iff e).mp he
  have hdrop : ∃ ys, (xs ++ [e]).dropWhile (fun e => e.isEmpty) = ys ++ [e] := by
    induction xs with
    | nil =>
      refine ⟨[], ?_⟩
      cases e with
      | nil => exact absurd rfl he0
      | cons c e => simp [List.dropWhile]
    | cons x xs ih =>
      cases x with
      | nil => simpa [List.dropWhile] using ih
      | cons c x => exact ⟨(c :: x) :: xs, by simp [List.dropWhile]⟩
  obtain ⟨ys, hys⟩ := hdrop
  have hjoin : filepath.Join (xs ++ [e]) = filepath.Clean (List.intercalate ['/'] (ys ++ [e])) := by
    unfold filepath.Join
    rw [hys]
    cases ys <;> rfl
  have hform : ∃ p, (p = [] ∨ ∃ q, p = q ++ ['/']) ∧
      List.intercalate ['/'] (ys ++ [e]) = p ++ e := by
    by_cases hy : ys = []
    · subst hy
      exact ⟨[], Or.inl rfl, by simp [filepath.intercalate_singleton]⟩
    · refine ⟨List.intercalate ['/'] ys ++ ['/'], Or.inr ⟨_, rfl⟩, ?_⟩
      rw [filepath.intercalate_append _ _ _ hy (by simp), filepath.intercalate_singleton]
  obtain ⟨p, hp, hpe⟩ := hform
  obtain ⟨w, hw, hclean⟩ := filepath.Clean_last_elem p e hp he
  rw [hjoin, hpe, hclean]
  exact filepath.Base_last_elem w e hw he

/-- The base name of an element without a slash is the element itself. -/
theorem filepath.Base_of_no_slash (n : List Char) (h0 : n ≠ []) (hs : '/' ∉ n) :
    filepath.Base n = n := by
  cases hr : n.reverse with
  | nil => exact absurd (by simpa using hr) h0
  | cons c cs =>
    have hall : ∀ x ∈ c :: cs, (!decide (x = '/')) = true := by
      intro x hx
      have hxn : x ∈ n := by
        have : x ∈ n.reverse := hr ▸ hx
        simpa using this
      have : x ≠ '/' := fun hx' => hs (hx' ▸ hxn)
      simpa using this
    have hc : c ≠ '/' := by simpa using hall c (by simp)
    unfold filepath.Base
    rw [if_neg h0, hr]
    have hdrop : (c :: cs).dropWhile (fun c => decide (c = '/')) = c :: cs := by
      simp [List.dropWhile, hc]
    simp only [hdrop]
    rw [List.takeWhile_eq_self_iff.mpr hall, ← hr, List.reverse_reverse, if_neg h0]

theorem filepath.Join_Base_examples :
    filepath.Base (filepath.Join ["/repo".toList, "..".toList, "src".toList]) = "src".toList ∧
    filepath.Base "users".toList = "users".toList ∧
    filepath.Join ["/repo/apps/orders".toList, "src/index.ts".toList] =
      "/repo/apps/orders/src/index.ts".toList := by
  decide

/-! ## Context validation and name validation -/

/-- C2. With working directory `cwd`, `validateContext` returns no error exactly
in these cases: for `app` and `package`, when one of `turbo.json`,
`package.json`, `apps`, `packages` exists directly under `cwd` or `cwd` contains
the entity type followed by `s`; for every other type, when `cwd` contains
`apps`. In every other case it returns the wrong-directory error. -/
theorem validateContext_accepts_iff (env : Env) (fs : FS) (entityType cwd : List Char)
    (hcwd : env.Getwd = some cwd) :
    (validateContext env entityType fs = none ↔
      if entityType = "app".toList ∨ entityType = "package".toList then
        (∃ indicator ∈ ["turbo.json".toList, "package.json".toList, "apps".toList,
            "packages".toList], os.Stat fs (filepath.Join [cwd, indicator]) = true) ∨
          entityType ++ "s".toList <:+: cwd
      else "apps".toList <:+: cwd) ∧
    (validateContext env entityType fs ≠ none →
      validateContext env entityType fs = some (Err.wrongDirectory entityType cwd)) := by
  have hroot : isMonorepoRoot fs cwd = true ↔
      ∃ indicator ∈ ["turbo.json".toList, "package.json".toList, "apps".toList,
        "packages".toList], os.Stat fs (filepath.Join [cwd, indicator]) = true := by
    unfold isMonorepoRoot
    rw [List.any_eq_true]
  unfold validateContext
  rw [hcwd]
  simp only []
  by_cases ht : entityType = "app".toList ∨ entityType = "package".toList
  · rw [if_pos ht, if_pos ht, ← hroot, ← strings.Contains_iff]
    cases h1 : isMonorepoRoot fs cwd <;>
      cases h2 : strings.Contains cwd (entityType ++ "s".toList) <;> simp
  · rw [if_neg ht, if_neg ht, ← strings.Contains_iff]
    cases h2 : strings.Contains cwd "apps".toList <;> simp

theorem validateContext_accepts_iff_witness :
    (sampleEnv "/repo".toList []).Getwd = some "/repo".toList ∧
    validateContext (sampleEnv "/repo".toList []) "app".toList (sampleRoot "/repo".toList) = none ∧
    validateContext (sampleEnv "/repo".toList []) "service".toList (sampleRoot "/repo".toList) =
      some (Err.wrongDirectory "service".toList "/repo".toList) :=
  ⟨rfl, by decide,
    (validateContext_accepts_iff (sampleEnv "/repo".toList []) (sampleRoot "/repo".toList) "service".toList
      "/repo".toList rfl).2 (by decide)⟩

/-- C3, as the code has it. The name validator does not trim: it accepts a name
exactly when its length in bytes is at least 3, whatever the characters; the
empty name and a name of one or two bytes are rejected, each with its own error. -/
theorem validate_accepts_iff (input : List Char) :
    (runInteractiveCreation.validate input = none ↔ 3 ≤ len input) ∧
    (len input = 0 → runInteractiveCreation.validate input = some Err.nameEmpty) ∧
    (1 ≤ len input → len input < 3 →
      runInteractiveCreation.validate input = some Err.nameTooShort) := by
  unfold runInteractiveCreation.validate
  refine ⟨?_, ?_, ?_⟩
  · split_ifs <;> simp <;> omega
  · intro h; simp [h]
  · intro h1 h2
    rw [if_neg (by omega), if_pos h2]

/-- C3 fails as stated: the name of three bytes made of two blanks and `a` is
accepted, although one character is left once the blanks around it are trimmed. -/
theorem validate_does_not_trim :
    runInteractiveCreation.validate "  a".toList = none ∧
    (specTrimmed "  a".toList).length = 1 ∧
    len (specTrimmed "  a".toList) = 1 := by
  decide

/-- C4 fails on the code: `create controller x` inside an app directory is not
rejected. `createEntity` passes the one-letter name to the generator, which
creates the directory and the file, while the name validator of the interactive
path rejects the same name. -/
theorem createEntity_accepts_short_name :
    (createEntity (sampleEnv "/repo/apps/orders".toList []) "controller".toList "x".toList
      (sampleDir "/repo/apps/orders".toList)).1 = none ∧
    createdFiles (createEntity (sampleEnv "/repo/apps/orders".toList []) "controller".toList
      "x".toList (sampleDir "/repo/apps/orders".toList)).2.log =
      ["/repo/apps/orders/src/controllers/x/x.controller.ts".toList] ∧
    "/repo/apps/orders/src/controllers/x".toList ∈
      (createEntity (sampleEnv "/repo/apps/orders".toList []) "controller".toList
        "x".toList (sampleDir "/repo/apps/orders".toList)).2.dirs ∧
    runInteractiveCreation.validate "x".toList = some Err.nameTooShort := by
  decide

/-! ## `CreateEntity` for the types other than `app` -/

/-- What `CreateEntity` does for a type other than `app`, whatever its outcome. -/
theorem Generator.CreateEntity_spec (env : Env) (fs : FS) (entityType name cwd : List Char)
    (hcwd : env.Getwd = some cwd) (hty : entityType ≠ "app".toList) :
    ∃ events,
      (Generator.CreateEntity env entityType name fs).2.log = fs.log ++ events ∧
      (∃ ok rest, events = Event.mkdirAll (Generator.CreateEntity.outputDir entityType
        (strings.ToLower env.unicodeToLower name) cwd) ok :: rest) ∧
      (∀ d ∈ executedData events, d =
        { Name := filepath.Base (strings.ToLower env.unicodeToLower name),
          Package := filepath.Base (Generator.CreateEntity.outputDir entityType
            (strings.ToLower env.unicodeToLower name) cwd),
          Timestamp := env.now }) ∧
      ((Generator.CreateEntity env entityType name fs).1 = none →
        createdFiles events =
          [filepath.Join [Generator.CreateEntity.outputDir entityType
              (strings.ToLower env.unicodeToLower name) cwd,
            getOutputFileName entityType
              (filepath.Base (strings.ToLower env.unicodeToLower name))]] ∧
        executedData events =
          [{ Name := filepath.Base (strings.ToLower env.unicodeToLower name),
             Package := filepath.Base (Generator.CreateEntity.outputDir entityType
               (strings.ToLower env.unicodeToLower name) cwd),
             Timestamp := env.now }] ∧
        filepath.Join [Generator.CreateEntity.outputDir entityType
            (strings.ToLower env.unicodeToLower name) cwd,
          getOutputFileName entityType
            (filepath.Base (strings.ToLower env.unicodeToLower name))] ∈
          (Generator.CreateEntity env entityType name fs).2.fileNames ∧
        Generator.CreateEntity.outputDir entityType
            (strings.ToLower env.unicodeToLower name) cwd ∈
          (Generator.CreateEntity env entityType name fs).2.dirs) ∧
      (∀ p ∈ fs.fileNames, p ∈ (Generator.CreateEntity env entityType name fs).2.fileNames) ∧
      (∀ d ∈ fs.dirs, d ∈ (Generator.CreateEntity env entityType name fs).2.dirs) := by
  unfold Generator.CreateEntity
  rw [hcwd]
  simp only []
  rw [if_neg hty]
  generalize strings.ToLower env.unicodeToLower name = n
  generalize Generator.CreateEntity.outputDir entityType n cwd = dir
  generalize getOutputFileName entityType (filepath.Base n) = fileName
  generalize entityType ++ ".tmpl".toList = tmpl
  have hm_log := os.MkdirAll_log env dir fs
  have hm_files := os.MkdirAll_fileNames env dir fs
  have hm_dirs := os.MkdirAll_dirs env dir fs
  have hm_self := os.MkdirAll_self env dir fs
  rcases hm : os.MkdirAll env dir fs with ⟨ok1, fs1⟩
  rw [hm] at hm_log hm_files hm_dirs hm_self
  simp only at hm_log hm_files hm_dirs hm_self
  cases ok1 with
  | false =>
    refine ⟨_, hm_log, ⟨_, _, rfl⟩, ?_⟩
    simp only [createdFiles, executedData]
    exact ⟨by simp, by simp, by simp [hm_files], hm_dirs⟩
  | true =>
    simp only []
    cases ht : env.Templates tmpl with
    | none =>
      refine ⟨_, hm_log, ⟨_, _, rfl⟩, ?_⟩
      simp only [createdFiles, executedData]
      exact ⟨by simp, by simp, by simp [hm_files], hm_dirs⟩
    | some text =>
      simp only []
      by_cases hp : env.parseFails tmpl text = true
      · rw [if_pos hp]
        refine ⟨_, hm_log, ⟨_, _, rfl⟩, ?_⟩
        simp only [createdFiles, executedData]
        exact ⟨by simp, by simp, by simp [hm_files], hm_dirs⟩
      · rw [if_neg hp]
        have hc_log := os.Create_log env (filepath.Join [dir, fileName]) fs1
        have hc_files := os.Create_fileNames env (filepath.Join [dir, fileName]) fs1
        have hc_dirs := os.Create_dirs env (filepath.Join [dir, fileName]) fs1
        rcases hc : os.Create env (filepath.Join [dir, fileName]) fs1 with ⟨ok2, fs2⟩
        rw [hc] at hc_log hc_files hc_dirs
        simp only at hc_log hc_files hc_dirs
        cases ok2 with
        | false =>
          refine ⟨[Event.mkdirAll dir true, Event.create (filepath.Join [dir, fileName]) false],
            by rw [hc_log, hm_log, List.append_assoc]; rfl, ⟨_, _, rfl⟩, ?_⟩
          simp only [createdFiles, executedData]
          refine ⟨by simp, by simp, ?_, ?_⟩
          · intro p hp; exact hc_files p (hm_files ▸ hp)
          · intro d hd; rw [hc_dirs]; exact hm_dirs d hd
        | true =>
          simp only []
          have he_log := templateExecute_log env tmpl text
            { Name := filepath.Base n, Package := filepath.Base dir, Timestamp := env.now }
            (filepath.Join [dir, fileName]) fs2
          have he_files := templateExecute_fileNames env tmpl text
            { Name := filepath.Base n, Package := filepath.Base dir, Timestamp := env.now }
            (filepath.Join [dir, fileName]) fs2
          have he_self := templateExecute_self env tmpl text
            { Name := filepath.Base n, Package := filepath.Base dir, Timestamp := env.now }
            (filepath.Join [dir, fileName]) fs2
          have he_dirs := templateExecute_dirs env tmpl text
            { Name := filepath.Base n, Package := filepath.Base dir, Timestamp := env.now }
            (filepath.Join [dir, fileName]) fs2
          rcases he : templateExecute env tmpl text
            { Name := filepath.Base n, Package := filepath.Base dir, Timestamp := env.now }
            (filepath.Join [dir, fileName]) fs2 with ⟨ok3, fs3⟩
          rw [he] at he_log he_files he_self he_dirs
          simp only at he_log he_files he_self he_dirs
          have hlog : fs3.log = fs.log ++ [Event.mkdirAll dir true,
              Event.create (filepath.Join [dir, fileName]) true,
              Event.execute tmpl
                { Name := filepath.Base n, Package := filepath.Base dir, Timestamp := env.now }
                (filepath.Join [dir, fileName]) ok3] := by
            rw [he_log, hc_log, hm_log]; simp
          have hfiles : ∀ p ∈ fs.fileNames, p ∈ fs3.fileNames := by
            intro p hp; exact he_files p (hc_files p (hm_files ▸ hp))
          have hdirs : ∀ d ∈ fs.dirs, d ∈ fs3.dirs := by
            intro d hd; rw [he_dirs, hc_dirs]; exact hm_dirs d hd
          have hdir : dir ∈ fs3.dirs := by
            rw [he_dirs, hc_dirs]; exact hm_self rfl
          cases ok3 with
          | false =>
            refine ⟨_, hlog, ⟨_, _, rfl⟩, ?_⟩
            simp only [createdFiles, executedData]
            exact ⟨by simp, by simp, hfiles, hdirs⟩
          | true =>
            refine ⟨_, hlog, ⟨_, _, rfl⟩, ?_⟩
            simp only [createdFiles, executedData]
            exact ⟨by simp, by simp [he_self, hdir], hfiles, hdirs⟩

/-! ## A cooperative environment lets every run end without error -/

theorem Generator.createApp.processFile_succeeds (env : Env) (outputDir : List Char)
    (data : EntityData) (file : List Char × List Char) (fs : FS) (hco : env.cooperative)
    (ht : env.Templates file.1 ≠ none) :
    (Generator.createApp.processFile env outputDir data file fs).1 = none := by
  obtain ⟨h1, h2, h3, h4⟩ := hco
  obtain ⟨text, htext⟩ := Option.ne_none_iff_exists'.mp ht
  simp [Generator.createApp.processFile, os.MkdirAll, os.Create, templateExecute, h1, h2, h3,
    h4, htext]

theorem Generator.createApp.loop_succeeds (env : Env) (outputDir : List Char)
    (data : EntityData) (files : List (List Char × List Char)) (fs : FS)
    (hco : env.cooperative) (ht : ∀ f ∈ files, env.Templates f.1 ≠ none) :
    (Generator.createApp.loop env outputDir data files fs).1 = none := by
  induction files generalizing fs with
  | nil => rfl
  | cons f rest ih =>
    have h := Generator.createApp.processFile_succeeds env outputDir data f fs hco
      (ht f (by simp))
    simp only [Generator.createApp.loop]
    rcases hf : Generator.createApp.processFile env outputDir data f fs with ⟨r, fs1⟩
    rw [hf] at h
    simp only at h
    subst h
    exact ih fs1 (fun g hg => ht g (List.mem_cons_of_mem _ hg))

theorem Generator.CreateEntity_succeeds (env : Env) (fs : FS) (entityType name cwd : List Char)
    (hcwd : env.Getwd = some cwd) (hco : env.cooperative)
    (happ : entityType = "app".toList →
      ∀ f ∈ Generator.createApp.appFiles (strings.ToLower env.unicodeToLower name),
        env.Templates f.1 ≠ none)
    (hother : entityType ≠ "app".toList →
      env.Templates (entityType ++ ".tmpl".toList) ≠ none) :
    (Generator.CreateEntity env entityType name fs).1 = none := by
  unfold Generator.CreateEntity
  rw [hcwd]
  simp only []
  by_cases hty : entityType = "app".toList
  · rw [if_pos hty]
    unfold Generator.createApp
    simp only []
    have hm : (os.MkdirAll env (Generator.createApp.outputDir
        (strings.ToLower env.unicodeToLower name) cwd) fs).1 = true := by
      simp [os.MkdirAll, hco.1]
    rcases hmk : os.MkdirAll env (Generator.createApp.outputDir
        (strings.ToLower env.unicodeToLower name) cwd) fs with ⟨ok, fs1⟩
    rw [hmk] at hm
    simp only at hm
    subst hm
    exact Generator.createApp.loop_succeeds env _ _ _ fs1 hco (happ hty)
  · rw [if_neg hty]
    obtain ⟨h1, h2, h3, h4⟩ := hco
    obtain ⟨text, htext⟩ := Option.ne_none_iff_exists'.mp (hother hty)
    generalize entityType ++ ".tmpl".toList = tmpl at htext ⊢
    simp [os.MkdirAll, os.Create, templateExecute, h1, h2, h3, h4, htext]

theorem createEntity_succeeds (env : Env) (fs : FS) (entityType name cwd : List Char)
    (hcwd : env.Getwd = some cwd) (hctx : validateContext env entityType fs = none)
    (hco : env.cooperative)
    (happ : entityType = "app".toList →
      ∀ f ∈ Generator.createApp.appFiles (strings.ToLower env.unicodeToLower name),
        env.Templates f.1 ≠ none)
    (hother : entityType ≠ "app".toList →
      env.Templates (entityType ++ ".tmpl".toList) ≠ none) :
    (createEntity env entityType name fs).1 = none := by
  have h := Generator.CreateEntity_succeeds env fs entityType name cwd hcwd hco happ hother
  unfold createEntity
  rw [hctx]
  simp only []
  rcases hg : Generator.CreateEntity env entityType name fs with ⟨r, fs1⟩
  rw [hg] at h
  simp only at h
  subst h
  rfl

/-! ## The data given to the templates -/

/-- C10. For a package the `Package` field of the data given to the template is
the string `src`, whatever the name and the working directory: every template
execution of the run carries it, a run that ends without error has executed the
template exactly once, and in a cooperative environment that has the template
and a working directory the run does end without error. -/
theorem package_data_Package_is_src (env : Env) (fs : FS) (name : List Char) :
    ∃ events,
      (Generator.CreateEntity env "package".toList name fs).2.log = fs.log ++ events ∧
      (∀ d ∈ executedData events, d.Package = "src".toList) ∧
      ((Generator.CreateEntity env "package".toList name fs).1 = none →
        executedData events =
          [{ Name := filepath.Base (strings.ToLower env.unicodeToLower name),
             Package := "src".toList, Timestamp := env.now }]) ∧
      (env.Getwd ≠ none → env.cooperative → env.Templates "package.tmpl".toList ≠ none →
        (Generator.CreateEntity env "package".toList name fs).1 = none) := by
  cases hcwd : env.Getwd with
  | none =>
    refine ⟨[], ?_, ?_, ?_, ?_⟩
    · simp [Generator.CreateEntity, hcwd]
    · simp [executedData]
    · simp [Generator.CreateEntity, hcwd]
    · intro h; exact absurd rfl h
  | some cwd =>
    have hbase : filepath.Base (Generator.CreateEntity.outputDir "package".toList
        (strings.ToLower env.unicodeToLower name) cwd) = "src".toList := by
      unfold Generator.CreateEntity.outputDir
      rw [if_neg (by decide), if_pos rfl]
      split
      · exact filepath.Base_Join_last [cwd, strings.ToLower env.unicodeToLower name]
          "src".toList (by decide)
      · exact filepath.Base_Join_last
          [cwd, "packages".toList, strings.ToLower env.unicodeToLower name]
          "src".toList (by decide)
    obtain ⟨events, hlog, -, hdata, hok, -, -⟩ :=
      Generator.CreateEntity_spec env fs "package".toList name cwd hcwd (by decide)
    rw [hbase] at hdata hok
    refine ⟨events, hlog, ?_, ?_, ?_⟩
    · intro d hd
      rw [hdata d hd]
    · intro h
      exact (hok h).2.1
    · intro _ hco ht
      exact Generator.CreateEntity_succeeds env fs _ name cwd hcwd hco
        (fun h => absurd h (by decide)) (fun _ => ht)

/-- C9 fails on the code for `app`: `create app team/billing` at a monorepo root
gives every one of the ten templates the name `team/billing`, not its base name
`billing`, while `create controller team/billing` in an app directory gives its
template the base name. -/
theorem createApp_data_Name_is_not_base :
    (createEntity (sampleEnv "/repo".toList []) "app".toList "team/billing".toList
      (sampleRoot "/repo".toList)).1 = none ∧
    executedData (createEntity (sampleEnv "/repo".toList []) "app".toList
      "team/billing".toList (sampleRoot "/repo".toList)).2.log =
      List.replicate 10 { Name := "team/billing".toList, Package := "billing".toList,
                          Timestamp := "2024-05-01T10:00:00Z".toList } ∧
    filepath.Base (strings.ToLower Char.toLower "team/billing".toList) = "billing".toList ∧
    executedData (createEntity (sampleEnv "/repo/apps/orders".toList []) "controller".toList
      "team/billing".toList (sampleDir "/repo/apps/orders".toList)).2.log =
      [{ Name := "billing".toList, Package := "billing".toList,
         Timestamp := "2024-05-01T10:00:00Z".toList }] := by
  decide

/-! ## App creation stops at the first failure -/

theorem List.eq_take_append_cons_drop {α : Type} (l : List α) (k : Nat) (a : α)
    (h : l[k]? = some a) : l = l.take k ++ a :: l.drop (k + 1) := by
  induction l generalizing k with
  | nil => simp at h
  | cons x xs ih =>
    cases k with
    | zero => simp at h; simp [h]
    | succ k =>
      simp only [List.getElem?_cons_succ] at h
      simp only [List.take_succ_cons, List.drop_succ_cons, List.cons_append]
      rw [← ih k h]

/-- C8. In `createApp`, once the app directory exists: if the entries before the
`k`-th of the ten-entry template list are processed without error and the
`k`-th fails (creating its directory, reading or parsing its template, creating
or rendering its file), then `createApp` returns that error in the state the
failing entry left, without touching a later entry: the files created by the run
are those of the entries before `k`, and the `k`-th when it is the rendering
that failed, the directories asked for are those of the entries up to `k`, and
the files of the entries before `k` are on disk. -/
theorem Generator.createApp_stops_at_first_failure (env : Env) (name cwd : List Char)
    (fs fs1 fsk fs' : FS) (k : Nat) (file : List Char × List Char) (e : Err)
    (hbase : os.MkdirAll env (Generator.createApp.outputDir name cwd) fs = (true, fs1))
    (hk : (Generator.createApp.appFiles name)[k]? = some file)
    (hbefore : Generator.createApp.loop env (Generator.createApp.outputDir name cwd)
      { Name := name, Package := filepath.Base (Generator.createApp.outputDir name cwd),
        Timestamp := env.now }
      ((Generator.createApp.appFiles name).take k) fs1 = (none, fsk))
    (hfail : Generator.createApp.processFile env (Generator.createApp.outputDir name cwd)
      { Name := name, Package := filepath.Base (Generator.createApp.outputDir name cwd),
        Timestamp := env.now } file fsk = (some e, fs')) :
    (Generator.createApp.appFiles name).length = 10 ∧
    Generator.createApp env name cwd fs = (some e, fs') ∧
    ∃ events, fs'.log = fs1.log ++ events ∧
      mkdirCalls events = ((Generator.createApp.appFiles name).map
        (fun f => filepath.Join [Generator.createApp.outputDir name cwd,
          filepath.Dir f.2])).take (k + 1) ∧
      (createdFiles events = ((Generator.createApp.appFiles name).map
          (fun f => filepath.Join [Generator.createApp.outputDir name cwd, f.2])).take k ∨
       (e = Err.executeTemplate file.1 ∧
        createdFiles events = ((Generator.createApp.appFiles name).map
          (fun f => filepath.Join [Generator.createApp.outputDir name cwd, f.2])).take
            (k + 1))) ∧
      (∀ f ∈ ((Generator.createApp.appFiles name).map
          (fun f => filepath.Join [Generator.createApp.outputDir name cwd, f.2])).take k,
        f ∈ fs'.fileNames) ∧
      (∀ p ∈ fs.fileNames, p ∈ fs'.fileNames) := by
  have hsplit := List.eq_take_append_cons_drop _ k file hk
  refine ⟨rfl, ?_, ?_⟩
  · unfold Generator.createApp
    simp only []
    rw [hbase]
    simp only []
    rw [hsplit]
    exact Generator.createApp.loop_abort env _ _ _ file _ fs1 fsk fs' e hbefore hfail
  · obtain ⟨ev1, hlog1, hc1, -, hall1, hfiles1, -, hmk1⟩ :=
      Generator.createApp.loop_ok env _ _ _ fs1 fsk hbefore
    obtain ⟨ev2, hlog2, hmk2, -, -, -, hfail2, hfiles2, -⟩ :=
      Generator.createApp.processFile_spec env (Generator.createApp.outputDir name cwd)
        { Name := name, Package := filepath.Base (Generator.createApp.outputDir name cwd),
          Timestamp := env.now } file fsk
    rw [hfail] at hlog2 hfail2 hfiles2
    simp only at hlog2 hfail2 hfiles2
    have hbase_files : fs1.fileNames = fs.fileNames := by
      have := os.MkdirAll_fileNames env (Generator.createApp.outputDir name cwd) fs
      rw [hbase] at this
      exact this
    refine ⟨ev1 ++ ev2, by rw [hlog2, hlog1, List.append_assoc], ?_, ?_, ?_, ?_⟩
    · rw [mkdirCalls_append, hmk1, hmk2, List.map_take, List.take_succ, List.getElem?_map, hk]
      rfl
    · rw [createdFiles_append, hc1, List.map_take]
      rcases hfail2 e rfl with ⟨h0, -⟩ | ⟨h1, he⟩
      · left; rw [h0, List.append_nil]
      · right
        refine ⟨he, ?_⟩
        rw [h1, List.take_succ, List.getElem?_map, hk]
        rfl
    · intro f hf
      rw [← List.map_take] at hf
      obtain ⟨g, hg, rfl⟩ := List.mem_map.mp hf
      exact hfiles2 _ (hall1 g hg)
    · intro p hp
      exact hfiles2 p (hfiles1 p (hbase_files ▸ hp))

theorem Generator.createApp_stops_at_first_failure_witness :
    Generator.createApp (sampleEnv "/repo".toList ["/repo/apps/payments/Dockerfile".toList])
      "payments".toList "/repo".toList (sampleRoot "/repo".toList) =
      (some (Err.createFile "/repo/apps/payments/Dockerfile".toList),
       (Generator.createApp (sampleEnv "/repo".toList
          ["/repo/apps/payments/Dockerfile".toList]) "payments".toList "/repo".toList
          (sampleRoot "/repo".toList)).2) ∧
    createdFiles (Generator.createApp (sampleEnv "/repo".toList
        ["/repo/apps/payments/Dockerfile".toList]) "payments".toList "/repo".toList
        (sampleRoot "/repo".toList)).2.log =
      ["/repo/apps/payments/src/routes/v1/router.ts".toList,
       "/repo/apps/payments/src/index.ts".toList] ∧
    "/repo/apps/payments/src/index.ts".toList ∈
      (Generator.createApp (sampleEnv "/repo".toList
        ["/repo/apps/payments/Dockerfile".toList]) "payments".toList "/repo".toList
        (sampleRoot "/repo".toList)).2.fileNames :=
  have h := Generator.createApp_stops_at_first_failure
    (sampleEnv "/repo".toList ["/repo/apps/payments/Dockerfile".toList])
    "payments".toList "/repo".toList (sampleRoot "/repo".toList)
    (os.MkdirAll (sampleEnv "/repo".toList ["/repo/apps/payments/Dockerfile".toList])
      "/repo/apps/payments".toList (sampleRoot "/repo".toList)).2
    (Generator.createApp.loop (sampleEnv "/repo".toList
        ["/repo/apps/payments/Dockerfile".toList]) "/repo/apps/payments".toList
      { Name := "payments".toList, Package := "payments".toList,
        Timestamp := "2024-05-01T10:00:00Z".toList }
      ((Generator.createApp.appFiles "payments".toList).take 2)
      (os.MkdirAll (sampleEnv "/repo".toList ["/repo/apps/payments/Dockerfile".toList])
        "/repo/apps/payments".toList (sampleRoot "/repo".toList)).2).2
    (Generator.createApp (sampleEnv "/repo".toList
      ["/repo/apps/payments/Dockerfile".toList]) "payments".toList "/repo".toList
      (sampleRoot "/repo".toList)).2
    2 ("app/Dockerfile.tmpl".toList, "Dockerfile".toList)
    (Err.createFile "/repo/apps/payments/Dockerfile".toList)
    (by decide) (by decide) (by decide) (by decide)
  ⟨h.2.1, by decide, by decide⟩

/-! ## Paths made of ordinary elements -/

theorem filepath.isCleanDir_iff (dir : List Char) :
    filepath.isCleanDir dir = true ↔
      filepath.Clean dir = dir ∧ dir ≠ ['/'] ∧ dir ≠ ['.'] := by
  unfold filepath.isCleanDir
  exact decide_eq_true_iff

theorem filepath.allElems_of_isElem (a : List Char) (ha : filepath.isElem a = true) :
    ∀ e ∈ filepath.splitElems a, filepath.isElem e = true := by
  obtain ⟨-, hs, -, -⟩ := (filepath.isElem_iff a).mp ha
  rw [filepath.splitElems_of_no_slash a hs]
  intro e he
  rw [List.mem_singleton.mp he]
  exact ha

theorem filepath.allElems_cons (a r : List Char) (ha : filepath.isElem a = true)
    (hr : ∀ e ∈ filepath.splitElems r, filepath.isElem e = true) :
    ∀ e ∈ filepath.splitElems (a ++ '/' :: r), filepath.isElem e = true := by
  rw [filepath.splitElems_append_slash]
  intro e he
  rcases List.mem_append.mp he with he | he
  · exact filepath.allElems_of_isElem a ha e he
  · exact hr e he

theorem filepath.isElem_append (n s : List Char) (hn : '/' ∉ n) (hs : '/' ∉ s)
    (hlen : 3 ≤ s.length) : filepath.isElem (n ++ s) = true := by
  rw [filepath.isElem_iff]
  have hl : 3 ≤ (n ++ s).length := by rw [List.length_append]; omega
  refine ⟨?_, ?_, ?_, ?_⟩
  · intro h; rw [h] at hl; simp at hl
  · intro h
    rcases List.mem_append.mp h with h | h
    · exact hn h
    · exact hs h
  · intro h; rw [h] at hl; simp at hl
  · intro h; rw [h] at hl; simp at hl

/-- Joining relative paths made of ordinary elements to a clean directory is
concatenation with slashes, and the result is again a clean directory. -/
theorem filepath.Join_cleanDir (x r : List Char) (hx : filepath.isCleanDir x = true)
    (hr : ∀ e ∈ filepath.splitElems r, filepath.isElem e = true) :
    filepath.Join [x, r] = x ++ '/' :: r ∧ filepath.isCleanDir (x ++ '/' :: r) = true := by
  obtain ⟨h1, h2, h3⟩ := (filepath.isCleanDir_iff x).mp hx
  have hx0 : x ≠ [] := by
    intro h; rw [h] at h1; simp [filepath.Clean] at h1
  refine ⟨filepath.Join_pair x r h1 h2 h3 hr, ?_⟩
  rw [filepath.isCleanDir_iff]
  refine ⟨filepath.Clean_append_rel x r h1 h2 h3 hr, ?_, ?_⟩
  · cases x with
    | nil => exact absurd rfl hx0
    | cons c x => simp
  · cases x with
    | nil => exact absurd rfl hx0
    | cons c x => simp

theorem filepath.Join_three (x a b : List Char) (hx : filepath.isCleanDir x = true)
    (ha : filepath.isElem a = true)
    (hb : ∀ e ∈ filepath.splitElems b, filepath.isElem e = true) :
    filepath.Join [x, a, b] = x ++ '/' :: (a ++ '/' :: b) ∧
      filepath.isCleanDir (x ++ '/' :: (a ++ '/' :: b)) = true := by
  have h := filepath.Join_cleanDir x (a ++ '/' :: b) hx (filepath.allElems_cons a b ha hb)
  refine ⟨?_, h.2⟩
  rw [← h.1]
  obtain ⟨h1, -, -⟩ := (filepath.isCleanDir_iff x).mp hx
  have hx0 : x ≠ [] := by
    intro h; rw [h] at h1; simp [filepath.Clean] at h1
  rw [filepath.Join_cons x _ hx0, filepath.Join_cons x _ hx0]
  simp [filepath.intercalate_cons_cons, filepath.intercalate_singleton]

theorem filepath.Join_four (x a b c : List Char) (hx : filepath.isCleanDir x = true)
    (ha : filepath.isElem a = true) (hb : filepath.isElem b = true)
    (hc : ∀ e ∈ filepath.splitElems c, filepath.isElem e = true) :
    filepath.Join [x, a, b, c] = x ++ '/' :: (a ++ '/' :: (b ++ '/' :: c)) ∧
      filepath.isCleanDir (x ++ '/' :: (a ++ '/' :: (b ++ '/' :: c))) = true := by
  have h := filepath.Join_cleanDir x (a ++ '/' :: (b ++ '/' :: c)) hx
    (filepath.allElems_cons a _ ha (filepath.allElems_cons b c hb hc))
  refine ⟨?_, h.2⟩
  rw [← h.1]
  obtain ⟨h1, -, -⟩ := (filepath.isCleanDir_iff x).mp hx
  have hx0 : x ≠ [] := by
    intro h; rw [h] at h1; simp [filepath.Clean] at h1
  rw [filepath.Join_cons x _ hx0, filepath.Join_cons x _ hx0]
  simp [filepath.intercalate_cons_cons, filepath.intercalate_singleton]

/-- The output directory of the code is the one the specification writes, when
the working directory is clean and the name an ordinary element. -/
theorem Generator.CreateEntity.outputDir_eq_spec (entityType n cwd : List Char)
    (hty : entityType ∈ entityTypes) (hcwd : filepath.isCleanDir cwd = true)
    (hn : filepath.isElem n = true) :
    Generator.CreateEntity.outputDir entityType n cwd = specOutputDir entityType n cwd ∧
      filepath.isCleanDir (specOutputDir entityType n cwd) = true := by
  have hnn := filepath.allElems_of_isElem n hn
  have hplural : filepath.isElem (entityType ++ "s".toList) = true := by
    simp only [entityTypes, List.mem_cons, List.mem_singleton, List.not_mem_nil, or_false] at hty
    rcases hty with rfl | rfl | rfl | rfl | rfl <;> decide
  unfold Generator.CreateEntity.outputDir specOutputDir
  by_cases h1 : entityType = "app".toList
  · rw [if_pos h1, if_pos h1]
    split
    · have h := filepath.Join_cleanDir cwd n hcwd hnn
      rw [h.1]
      have e : cwd ++ "/".toList ++ n = cwd ++ '/' :: n := by simp
      rw [e]; exact ⟨rfl, h.2⟩
    · have h := filepath.Join_three cwd "apps".toList n hcwd (by decide) hnn
      rw [h.1]
      have e : cwd ++ "/apps/".toList ++ n = cwd ++ '/' :: ("apps".toList ++ '/' :: n) := by simp
      rw [e]; exact ⟨rfl, h.2⟩
  · rw [if_neg h1, if_neg h1]
    by_cases h2 : entityType = "package".toList
    · rw [if_pos h2, if_pos h2]
      split
      · have h := filepath.Join_three cwd n "src".toList hcwd hn
          (filepath.allElems_of_isElem _ (by decide))
        rw [h.1]
        have e : cwd ++ "/".toList ++ n ++ "/src".toList =
            cwd ++ '/' :: (n ++ '/' :: "src".toList) := by simp
        rw [e]; exact ⟨rfl, h.2⟩
      · have h := filepath.Join_four cwd "packages".toList n "src".toList hcwd (by decide) hn
          (filepath.allElems_of_isElem _ (by decide))
        rw [h.1]
        have e : cwd ++ "/packages/".toList ++ n ++ "/src".toList =
            cwd ++ '/' :: ("packages".toList ++ '/' :: (n ++ '/' :: "src".toList)) := by simp
        rw [e]; exact ⟨rfl, h.2⟩
    · rw [if_neg h2, if_neg h2]
      split
      · have h := filepath.Join_three cwd (entityType ++ "s".toList) n hcwd hplural hnn
        rw [h.1]
        have e : cwd ++ "/".toList ++ entityType ++ "s/".toList ++ n =
            cwd ++ '/' :: (entityType ++ "s".toList ++ '/' :: n) := by simp
        rw [e]; exact ⟨rfl, h.2⟩
      · have h := filepath.Join_four cwd "src".toList (entityType ++ "s".toList) n hcwd
          (by decide) hplural hnn
        rw [h.1]
        have e : cwd ++ "/src/".toList ++ entityType ++ "s/".toList ++ n =
            cwd ++ '/' :: ("src".toList ++ '/' :: (entityType ++ "s".toList ++ '/' :: n)) := by
          simp
        rw [e]; exact ⟨rfl, h.2⟩

/-! ## The output directory -/

theorem Generator.createApp_log (env : Env) (name cwd : List Char) (fs : FS) :
    ∃ ok rest, (Generator.createApp env name cwd fs).2.log =
      fs.log ++ Event.mkdirAll (Generator.createApp.outputDir name cwd) ok :: rest := by
  unfold Generator.createApp
  simp only []
  have hm_log := os.MkdirAll_log env (Generator.createApp.outputDir name cwd) fs
  rcases hm : os.MkdirAll env (Generator.createApp.outputDir name cwd) fs with ⟨ok1, fs1⟩
  rw [hm] at hm_log
  simp only at hm_log
  cases ok1 with
  | false => exact ⟨false, [], hm_log⟩
  | true =>
    simp only []
    obtain ⟨events, hlog, -⟩ := Generator.createApp.loop_data env
      (Generator.createApp.outputDir name cwd)
      { Name := name, Package := filepath.Base (Generator.createApp.outputDir name cwd),
        Timestamp := env.now } (Generator.createApp.appFiles name) fs1
    exact ⟨true, events, by rw [hlog, hm_log, List.append_assoc]; rfl⟩

/-- C1. With working directory `cwd` and `n` the lower-cased name, the first
thing `CreateEntity` does to the file system is `os.MkdirAll` of the output
directory it resolved, which is: for `app`, `cwd` joined with `n` when `cwd`
contains `apps` and with `apps`, `n` otherwise; for `package`, `cwd` joined with
`n`, `src` when `cwd` contains `packages` and with `packages`, `n`, `src`
otherwise; for every other type `t`, `cwd` joined with `t`+`s`, `n` when `cwd`
contains `src` and with `src`, `t`+`s`, `n` otherwise. For one of the five entity
types, a clean working directory and a name that is an ordinary path element this
is the string the specification writes (`cwd/n`, `cwd/apps/n`, ...). -/
theorem Generator.CreateEntity_resolves_outputDir (env : Env) (fs : FS)
    (entityType name cwd : List Char) (hcwd : env.Getwd = some cwd) :
    ∃ dir ok rest,
      (Generator.CreateEntity env entityType name fs).2.log =
        fs.log ++ Event.mkdirAll dir ok :: rest ∧
      dir =
        (if entityType = "app".toList then
          (if "apps".toList <:+: cwd then
            filepath.Join [cwd, strings.ToLower env.unicodeToLower name]
           else filepath.Join [cwd, "apps".toList, strings.ToLower env.unicodeToLower name])
         else if entityType = "package".toList then
          (if "packages".toList <:+: cwd then
            filepath.Join [cwd, strings.ToLower env.unicodeToLower name, "src".toList]
           else filepath.Join [cwd, "packages".toList,
             strings.ToLower env.unicodeToLower name, "src".toList])
         else
          (if "src".toList <:+: cwd then
            filepath.Join [cwd, entityType ++ "s".toList,
              strings.ToLower env.unicodeToLower name]
           else filepath.Join [cwd, "src".toList, entityType ++ "s".toList,
             strings.ToLower env.unicodeToLower name])) ∧
      (entityType ∈ entityTypes → filepath.isCleanDir cwd = true →
        filepath.isElem (strings.ToLower env.unicodeToLower name) = true →
        dir = specOutputDir entityType (strings.ToLower env.unicodeToLower name) cwd) := by
  have hdir : Generator.CreateEntity.outputDir entityType
      (strings.ToLower env.unicodeToLower name) cwd =
      (if entityType = "app".toList then
          (if "apps".toList <:+: cwd then
            filepath.Join [cwd, strings.ToLower env.unicodeToLower name]
           else filepath.Join [cwd, "apps".toList, strings.ToLower env.unicodeToLower name])
         else if entityType = "package".toList then
          (if "packages".toList <:+: cwd then
            filepath.Join [cwd, strings.ToLower env.unicodeToLower name, "src".toList]
           else filepath.Join [cwd, "packages".toList,
             strings.ToLower env.unicodeToLower name, "src".toList])
         else
          (if "src".toList <:+: cwd then
            filepath.Join [cwd, entityType ++ "s".toList,
              strings.ToLower env.unicodeToLower name]
           else filepath.Join [cwd, "src".toList, entityType ++ "s".toList,
             strings.ToLower env.unicodeToLower name])) := by
    unfold Generator.CreateEntity.outputDir
    simp only [strings.Contains_iff]
  have hspec : entityType ∈ entityTypes → filepath.isCleanDir cwd = true →
      filepath.isElem (strings.ToLower env.unicodeToLower name) = true →
      Generator.CreateEntity.outputDir entityType
        (strings.ToLower env.unicodeToLower name) cwd =
      specOutputDir entityType (strings.ToLower env.unicodeToLower name) cwd :=
    fun h1 h2 h3 => (Generator.CreateEntity.outputDir_eq_spec entityType _ cwd h1 h2 h3).1
  by_cases hty : entityType = "app".toList
  · have happ : Generator.createApp.outputDir (strings.ToLower env.unicodeToLower name) cwd =
        Generator.CreateEntity.outputDir entityType
          (strings.ToLower env.unicodeToLower name) cwd := by
      unfold Generator.createApp.outputDir Generator.CreateEntity.outputDir
      rw [if_pos hty]
    obtain ⟨ok, rest, hlog⟩ :=
      Generator.createApp_log env (strings.ToLower env.unicodeToLower name) cwd fs
    refine ⟨_, ok, rest, ?_, hdir, hspec⟩
    unfold Generator.CreateEntity
    rw [hcwd]
    simp only []
    rw [if_pos hty, hlog, happ]
  · obtain ⟨events, hlog, ⟨ok, rest, hev⟩, -⟩ :=
      Generator.CreateEntity_spec env fs entityType name cwd hcwd hty
    exact ⟨_, ok, rest, by rw [hlog, hev], hdir, hspec⟩

theorem Generator.CreateEntity_resolves_outputDir_witness :
    ∃ ok rest,
      (Generator.CreateEntity (sampleEnv "/repo/apps/orders".toList []) "middleware".toList
        "RateLimit".toList (sampleDir "/repo/apps/orders".toList)).2.log =
        Event.mkdirAll "/repo/apps/orders/src/middlewares/ratelimit".toList ok :: rest :=
  match Generator.CreateEntity_resolves_outputDir (sampleEnv "/repo/apps/orders".toList [])
    (sampleDir "/repo/apps/orders".toList) "middleware".toList "RateLimit".toList
    "/repo/apps/orders".toList rfl with
  | ⟨_, ok, rest, hlog, _, hspec⟩ =>
    ⟨ok, rest, by rw [hlog, hspec (by decide) (by decide) (by decide)]; rfl⟩

/-! ## The files written -/

theorem createEntity_ok (env : Env) (entityType name : List Char) (fs fs' : FS)
    (h : createEntity env entityType name fs = (none, fs')) :
    validateContext env entityType fs = none ∧
      Generator.CreateEntity env entityType name fs = (none, fs') := by
  unfold createEntity at h
  cases hv : validateContext env entityType fs with
  | some err => rw [hv] at h; simp at h
  | none =>
    rw [hv] at h
    simp only at h
    rcases hg : Generator.CreateEntity env entityType name fs with ⟨r, fs1⟩
    rw [hg] at h
    cases r with
    | some err => simp at h
    | none =>
      simp only [Prod.mk.injEq, true_and] at h
      rw [h]
      exact ⟨rfl, rfl⟩

theorem getOutputFileName_eq (entityType nm : List Char) (hty : entityType ≠ "app".toList) :
    getOutputFileName entityType nm =
      if entityType = "package".toList then "index.ts".toList
      else nm ++ ".".toList ++ entityType ++ ".ts".toList := by
  unfold getOutputFileName
  rw [if_neg hty]

theorem filepath.Base_of_isElem (n : List Char) (hn : filepath.isElem n = true) :
    filepath.Base n = n := by
  obtain ⟨h0, hs, -, -⟩ := (filepath.isElem_iff n).mp hn
  exact filepath.Base_of_no_slash n h0 hs

theorem outputFileName_isElem (entityType n : List Char) (hty : entityType ∈ entityTypes)
    (hn : filepath.isElem n = true) :
    filepath.isElem (if entityType = "package".toList then "index.ts".toList
      else n ++ ".".toList ++ entityType ++ ".ts".toList) = true := by
  obtain ⟨-, hs, -, -⟩ := (filepath.isElem_iff n).mp hn
  simp only [entityTypes, List.mem_cons, List.mem_singleton, List.not_mem_nil, or_false] at hty
  rcases hty with rfl | rfl | rfl | rfl | rfl
  · rw [if_neg (by decide), List.append_assoc, List.append_assoc]
    exact filepath.isElem_append n _ hs (by decide) (by decide)
  · rw [if_pos rfl]; decide
  · rw [if_neg (by decide), List.append_assoc, List.append_assoc]
    exact filepath.isElem_append n _ hs (by decide) (by decide)
  · rw [if_neg (by decide), List.append_assoc, List.append_assoc]
    exact filepath.isElem_append n _ hs (by decide) (by decide)
  · rw [if_neg (by decide), List.append_assoc, List.append_assoc]
    exact filepath.isElem_append n _ hs (by decide) (by decide)

/-- A run of `CreateEntity` for a type other than `app` that ends without error
has created exactly one file. -/
theorem Generator.CreateEntity_ok_file (env : Env) (fs fs' : FS)
    (entityType name cwd : List Char) (hcwd : env.Getwd = some cwd)
    (hty : entityType ≠ "app".toList)
    (hok : Generator.CreateEntity env entityType name fs = (none, fs')) :
    ∃ events file,
      fs'.log = fs.log ++ events ∧ createdFiles events = [file] ∧ file ∈ fs'.fileNames ∧
      file = filepath.Join
        [Generator.CreateEntity.outputDir entityType
            (strings.ToLower env.unicodeToLower name) cwd,
          if entityType = "package".toList then "index.ts".toList
          else filepath.Base (strings.ToLower env.unicodeToLower name) ++ ".".toList ++
            entityType ++ ".ts".toList] ∧
      (entityType ∈ entityTypes → filepath.isCleanDir cwd = true →
        filepath.isElem (strings.ToLower env.unicodeToLower name) = true →
        file = specOutputDir entityType (strings.ToLower env.unicodeToLower name) cwd ++
          "/".toList ++
          (if entityType = "package".toList then "index.ts".toList
           else strings.ToLower env.unicodeToLower name ++ ".".toList ++ entityType ++
             ".ts".toList)) := by
  obtain ⟨events, hlog, -, -, hsucc, -, -⟩ :=
    Generator.CreateEntity_spec env fs entityType name cwd hcwd hty
  rw [hok] at hlog hsucc
  obtain ⟨hcreated, -, hmem, -⟩ := hsucc rfl
  rw [getOutputFileName_eq entityType _ hty] at hcreated hmem
  refine ⟨events, _, hlog, hcreated, hmem, rfl, ?_⟩
  intro h1 h2 h3
  obtain ⟨hdir, hclean⟩ := Generator.CreateEntity.outputDir_eq_spec entityType _ cwd h1 h2 h3
  rw [filepath.Base_of_isElem _ h3, hdir]
  have h := filepath.Join_cleanDir _ _ hclean
    (filepath.allElems_of_isElem _ (outputFileName_isElem entityType _ h1 h3))
  rw [h.1]
  simp

/-- C5, as the code has it. For a type other than `app`, a run of `CreateEntity`
that ends without error has created exactly one file, and the file exists: it is
the output directory joined with `index.ts` for `package`, and with
`<base>.<entityType>.ts` for every other type, where `<base>` is
`filepath.Base` of the lower-cased name, which is the lower-cased name itself
when that is an ordinary path element. `getOutputFileName` gives `index.ts` for
`app` and `package` and `<name>.<entityType>.ts` for every other type. -/
theorem Generator.CreateEntity_writes_one_file (env : Env) (fs fs' : FS)
    (entityType name cwd : List Char) (hcwd : env.Getwd = some cwd)
    (hty : entityType ≠ "app".toList)
    (hok : Generator.CreateEntity env entityType name fs = (none, fs')) :
    ∃ events file,
      fs'.log = fs.log ++ events ∧ createdFiles events = [file] ∧ file ∈ fs'.fileNames ∧
      file = filepath.Join
        [Generator.CreateEntity.outputDir entityType
            (strings.ToLower env.unicodeToLower name) cwd,
          if entityType = "package".toList then "index.ts".toList
          else filepath.Base (strings.ToLower env.unicodeToLower name) ++ ".".toList ++
            entityType ++ ".ts".toList] ∧
      (filepath.isElem (strings.ToLower env.unicodeToLower name) = true →
        filepath.Base (strings.ToLower env.unicodeToLower name) =
          strings.ToLower env.unicodeToLower name) ∧
      (entityType ∈ entityTypes → filepath.isCleanDir cwd = true →
        filepath.isElem (strings.ToLower env.unicodeToLower name) = true →
        file = specOutputDir entityType (strings.ToLower env.unicodeToLower name) cwd ++
          "/".toList ++
          (if entityType = "package".toList then "index.ts".toList
           else strings.ToLower env.unicodeToLower name ++ ".".toList ++ entityType ++
             ".ts".toList)) ∧
      (∀ nm, getOutputFileName "app".toList nm = "index.ts".toList ∧
        getOutputFileName "package".toList nm = "index.ts".toList) ∧
      (∀ t nm, t ≠ "app".toList → t ≠ "package".toList →
        getOutputFileName t nm = nm ++ ".".toList ++ t ++ ".ts".toList) := by
  obtain ⟨events, file, hlog, hcreated, hmem, hfile, hspec⟩ :=
    Generator.CreateEntity_ok_file env fs fs' entityType name cwd hcwd hty hok
  refine ⟨events, file, hlog, hcreated, hmem, hfile, filepath.Base_of_isElem _, hspec, ?_, ?_⟩
  · intro nm
    exact ⟨rfl, rfl⟩
  · intro t nm h1 h2
    unfold getOutputFileName
    rw [if_neg h1, if_neg h2]

theorem Generator.CreateEntity_writes_one_file_witness :
    ∃ events,
      (Generator.CreateEntity (sampleEnv "/repo/apps/orders".toList []) "controller".toList
        "Users".toList (sampleDir "/repo/apps/orders".toList)).2.log = [] ++ events ∧
      createdFiles events =
        ["/repo/apps/orders/src/controllers/users/users.controller.ts".toList] :=
  match Generator.CreateEntity_writes_one_file (sampleEnv "/repo/apps/orders".toList [])
    (sampleDir "/repo/apps/orders".toList)
    (Generator.CreateEntity (sampleEnv "/repo/apps/orders".toList []) "controller".toList
      "Users".toList (sampleDir "/repo/apps/orders".toList)).2
    "controller".toList "Users".toList "/repo/apps/orders".toList rfl (by decide)
    (by decide) with
  | ⟨events, _, hlog, hcreated, _, _, _, hspec, _⟩ =>
    ⟨events, hlog, by rw [hcreated, hspec (by decide) (by decide) (by decide)]; rfl⟩

/-- C5 fails as stated: for the name `Admin/Users` the one file `create controller`
writes is named after the base name, `users.controller.ts`, not after the
lower-cased name `admin/users`. -/
theorem Generator.CreateEntity_file_named_after_base :
    (Generator.CreateEntity (sampleEnv "/repo/apps/orders".toList []) "controller".toList
      "Admin/Users".toList (sampleDir "/repo/apps/orders".toList)).1 = none ∧
    createdFiles (Generator.CreateEntity (sampleEnv "/repo/apps/orders".toList [])
      "controller".toList "Admin/Users".toList (sampleDir "/repo/apps/orders".toList)).2.log =
      ["/repo/apps/orders/src/controllers/admin/users/users.controller.ts".toList] ∧
    filepath.Join [Generator.CreateEntity.outputDir "controller".toList
        (strings.ToLower Char.toLower "Admin/Users".toList) "/repo/apps/orders".toList,
      strings.ToLower Char.toLower "Admin/Users".toList ++ ".controller.ts".toList] =
      "/repo/apps/orders/src/controllers/admin/users/admin/users.controller.ts".toList ∧
    "/repo/apps/orders/src/controllers/admin/users/admin/users.controller.ts".toList ∉
      (Generator.CreateEntity (sampleEnv "/repo/apps/orders".toList []) "controller".toList
        "Admin/Users".toList (sampleDir "/repo/apps/orders".toList)).2.fileNames := by
  decide

/-- A run of `createApp` that ends without error has created the app directory
and one file for every entry of the template list. -/
theorem Generator.createApp_ok (env : Env) (name cwd : List Char) (fs fs' : FS)
    (h : Generator.createApp env name cwd fs = (none, fs')) :
    ∃ events, fs'.log = fs.log ++ events ∧
      Generator.createApp.outputDir name cwd ∈ fs'.dirs ∧
      createdFiles events = (Generator.createApp.appFiles name).map
        (fun f => filepath.Join [Generator.createApp.outputDir name cwd, f.2]) ∧
      (∀ f ∈ createdFiles events, f ∈ fs'.fileNames) := by
  unfold Generator.createApp at h
  simp only [] at h
  have hm_log := os.MkdirAll_log env (Generator.createApp.outputDir name cwd) fs
  have hm_self := os.MkdirAll_self env (Generator.createApp.outputDir name cwd) fs
  rcases hm : os.MkdirAll env (Generator.createApp.outputDir name cwd) fs with ⟨ok1, fs1⟩
  rw [hm] at h hm_log hm_self
  simp only at hm_log hm_self
  cases ok1 with
  | false => simp at h
  | true =>
    simp only [] at h
    obtain ⟨events, hlog, hcreated, -, hall, -, hdirs, -⟩ :=
      Generator.createApp.loop_ok env _ _ _ fs1 fs' h
    refine ⟨Event.mkdirAll (Generator.createApp.outputDir name cwd) true :: events,
      by rw [hlog, hm_log, List.append_assoc]; rfl, hdirs _ (hm_self rfl), ?_, ?_⟩
    · rw [← hcreated]; simp [createdFiles]
    · intro f hf
      have hf' : f ∈ createdFiles events := by simpa [createdFiles] using hf
      rw [hcreated] at hf'
      obtain ⟨g, hg, rfl⟩ := List.mem_map.mp hf'
      exact hall g hg

theorem specAppFiles_allElems (n : List Char) (hn : filepath.isElem n = true) :
    ∀ rel ∈ specAppFiles n, ∀ e ∈ filepath.splitElems rel, filepath.isElem e = true := by
  obtain ⟨-, hs, -, -⟩ := (filepath.isElem_iff n).mp hn
  have hc : "src/controllers/".toList ++ n ++ "/".toList ++ n ++ ".controller.ts".toList =
      "src".toList ++ '/' :: ("controllers".toList ++ '/' ::
        (n ++ '/' :: (n ++ ".controller.ts".toList))) := by simp
  have hsv : "src/services/".toList ++ n ++ "/".toList ++ n ++ ".service.ts".toList =
      "src".toList ++ '/' :: ("services".toList ++ '/' ::
        (n ++ '/' :: (n ++ ".service.ts".toList))) := by simp
  intro rel hrel
  simp only [specAppFiles, List.mem_cons, List.mem_singleton, List.not_mem_nil, or_false] at hrel
  rcases hrel with rfl | rfl | rfl | rfl | rfl | rfl | rfl | rfl | rfl | rfl
  · decide
  · decide
  · decide
  · decide
  · decide
  · decide
  · decide
  · decide
  · rw [hc]
    exact filepath.allElems_cons _ _ (by decide) (filepath.allElems_cons _ _ (by decide)
      (filepath.allElems_cons _ _ hn (filepath.allElems_of_isElem _
        (filepath.isElem_append n _ hs (by decide) (by decide)))))
  · rw [hsv]
    exact filepath.allElems_cons _ _ (by decide) (filepath.allElems_cons _ _ (by decide)
      (filepath.allElems_cons _ _ hn (filepath.allElems_of_isElem _
        (filepath.isElem_append n _ hs (by decide) (by decide)))))

/-- C6, as the code has it. In a working directory `cwd` that contains `apps` and
does not contain `src`, with `n` the lower-cased name, `create service` passes
the context validation; in a cooperative environment that has the template it
ends without error; and a run that ends without error has created exactly one
file, which exists: `n.service.ts` (named after the base name of `n`) in the
directory `cwd` joined with `src`, `services`, `n`. For a clean `cwd` and `n` an
ordinary path element this file is the string `cwd/src/services/n/n.service.ts`. -/
theorem create_service_in_app_directory (env : Env) (fs : FS) (name cwd : List Char)
    (hcwd : env.Getwd = some cwd)
    (happs : strings.Contains cwd "apps".toList = true)
    (hsrc : strings.Contains cwd "src".toList = false) :
    validateContext env "service".toList fs = none ∧
    (env.cooperative → env.Templates "service.tmpl".toList ≠ none →
      (createEntity env "service".toList name fs).1 = none) ∧
    ∀ fs', createEntity env "service".toList name fs = (none, fs') →
      ∃ events file,
        fs'.log = fs.log ++ events ∧ createdFiles events = [file] ∧ file ∈ fs'.fileNames ∧
        file = filepath.Join
          [filepath.Join [cwd, "src".toList, "services".toList,
              strings.ToLower env.unicodeToLower name],
            filepath.Base (strings.ToLower env.unicodeToLower name) ++
              ".service.ts".toList] ∧
        (filepath.Clean cwd = cwd →
          filepath.isElem (strings.ToLower env.unicodeToLower name) = true →
          file = cwd ++ "/src/services/".toList ++ strings.ToLower env.unicodeToLower name ++
            "/".toList ++ strings.ToLower env.unicodeToLower name ++ ".service.ts".toList) := by
  have hctx : validateContext env "service".toList fs = none := by
    unfold validateContext
    rw [hcwd]
    simp only []
    rw [if_neg (by decide), happs]
    rfl
  refine ⟨hctx, ?_, ?_⟩
  · intro hco ht
    exact createEntity_succeeds env fs _ name cwd hcwd hctx hco
      (fun h => absurd h (by decide)) (fun _ => ht)
  · intro fs' hok
    obtain ⟨-, hgen⟩ := createEntity_ok env _ name fs fs' hok
    obtain ⟨events, file, hlog, hcreated, hmem, hfile, hspec⟩ :=
      Generator.CreateEntity_ok_file env fs fs' "service".toList name cwd hcwd (by decide) hgen
    refine ⟨events, file, hlog, hcreated, hmem, ?_, ?_⟩
    · rw [hfile]
      unfold Generator.CreateEntity.outputDir
      rw [if_neg (by decide : ¬"service".toList = "app".toList),
        if_neg (by decide : ¬"service".toList = "package".toList),
        if_neg (by decide : ¬"service".toList = "package".toList), hsrc]
      simp
    · intro hclean hn
      have hdir : filepath.isCleanDir cwd = true := by
        rw [filepath.isCleanDir_iff]
        refine ⟨hclean, ?_, ?_⟩
        · intro h; rw [h] at happs; exact absurd happs (by decide)
        · intro h; rw [h] at happs; exact absurd happs (by decide)
      rw [hspec (by decide) hdir hn]
      unfold specOutputDir
      rw [if_neg (by decide : ¬"service".toList = "app".toList),
        if_neg (by decide : ¬"service".toList = "package".toList),
        if_neg (by decide : ¬"service".toList = "package".toList), hsrc]
      simp

theorem create_service_in_app_directory_witness :
    validateContext (sampleEnv "/repo/apps/orders".toList []) "service".toList
      (sampleDir "/repo/apps/orders".toList) = none ∧
    (createEntity (sampleEnv "/repo/apps/orders".toList []) "service".toList
      "checkout".toList (sampleDir "/repo/apps/orders".toList)).1 = none ∧
    ∃ events,
      (createEntity (sampleEnv "/repo/apps/orders".toList []) "service".toList
        "checkout".toList (sampleDir "/repo/apps/orders".toList)).2.log = [] ++ events ∧
      createdFiles events =
        ["/repo/apps/orders/src/services/checkout/checkout.service.ts".toList] ∧
      "/repo/apps/orders/src/services/checkout/checkout.service.ts".toList ∈
        (createEntity (sampleEnv "/repo/apps/orders".toList []) "service".toList
          "checkout".toList (sampleDir "/repo/apps/orders".toList)).2.fileNames :=
  have h := create_service_in_app_directory (sampleEnv "/repo/apps/orders".toList [])
    (sampleDir "/repo/apps/orders".toList) "checkout".toList "/repo/apps/orders".toList
    rfl (by decide) (by decide)
  match h.2.2 _ (by decide) with
  | ⟨events, _, hlog, hcreated, _, _, hlit⟩ =>
    ⟨h.1, h.2.1 ⟨fun _ _ => rfl, fun _ _ => rfl, fun _ _ => rfl, fun _ _ _ => rfl⟩ (by decide),
      events, hlog, by rw [hcreated, hlit (by decide) (by decide)]; rfl, by decide⟩

/-- C6 fails as stated: in an app directory whose path contains `src` the
service file is put under `cwd/services`, not under `cwd/src/services`; the name
`Checkout` gives the lower-case path, and the name `team/checkout` a file named
after its base name. -/
theorem create_service_other_paths :
    validateContext (sampleEnv "/home/dev/src/mono/apps/orders".toList []) "service".toList
      (sampleDir "/home/dev/src/mono/apps/orders".toList) = none ∧
    createdFiles (createEntity (sampleEnv "/home/dev/src/mono/apps/orders".toList [])
      "service".toList "checkout".toList
      (sampleDir "/home/dev/src/mono/apps/orders".toList)).2.log =
      ["/home/dev/src/mono/apps/orders/services/checkout/checkout.service.ts".toList] ∧
    "/home/dev/src/mono/apps/orders/src/services/checkout/checkout.service.ts".toList ∉
      (createEntity (sampleEnv "/home/dev/src/mono/apps/orders".toList [])
        "service".toList "checkout".toList
        (sampleDir "/home/dev/src/mono/apps/orders".toList)).2.fileNames ∧
    createdFiles (createEntity (sampleEnv "/repo/apps/orders".toList []) "service".toList
      "Checkout".toList (sampleDir "/repo/apps/orders".toList)).2.log =
      ["/repo/apps/orders/src/services/checkout/checkout.service.ts".toList] ∧
    createdFiles (createEntity (sampleEnv "/repo/apps/orders".toList []) "service".toList
      "team/checkout".toList (sampleDir "/repo/apps/orders".toList)).2.log =
      ["/repo/apps/orders/src/services/team/checkout/checkout.service.ts".toList] := by
  decide

/-- C7, as the code has it. At a monorepo root `cwd` whose path does not contain
`apps`, with `n` the lower-cased name, `create app` passes the context
validation; in a cooperative environment that has the ten templates it ends
without error; and a run that ends without error has created the directory `cwd`
joined with `apps`, `n` and, under it, exactly the ten files of the app template
set, all of which exist. For a clean `cwd` and `n` an ordinary path element the
directory is the string `cwd/apps/n` and the files are `cwd/apps/n/` followed by
`src/routes/v1/router.ts`, `src/index.ts`, `Dockerfile`, `eslint.config.js`,
`package.json`, `sonar-project.properties`, `tsconfig.json`, `vitest.config.ts`,
`src/controllers/n/n.controller.ts` and `src/services/n/n.service.ts`. -/
theorem create_app_at_monorepo_root (env : Env) (fs : FS) (name cwd : List Char)
    (hcwd : env.Getwd = some cwd) (hroot : isMonorepoRoot fs cwd = true)
    (happs : strings.Contains cwd "apps".toList = false) :
    validateContext env "app".toList fs = none ∧
    (env.cooperative →
      (∀ f ∈ Generator.createApp.appFiles (strings.ToLower env.unicodeToLower name),
        env.Templates f.1 ≠ none) →
      (createEntity env "app".toList name fs).1 = none) ∧
    ∀ fs', createEntity env "app".toList name fs = (none, fs') →
      ∃ events, fs'.log = fs.log ++ events ∧
        filepath.Join [cwd, "apps".toList, strings.ToLower env.unicodeToLower name] ∈
          fs'.dirs ∧
        createdFiles events = (specAppFiles (strings.ToLower env.unicodeToLower name)).map
          (fun rel => filepath.Join
            [filepath.Join [cwd, "apps".toList, strings.ToLower env.unicodeToLower name],
              rel]) ∧
        (specAppFiles (strings.ToLower env.unicodeToLower name)).length = 10 ∧
        (∀ f ∈ createdFiles events, f ∈ fs'.fileNames) ∧
        (filepath.isCleanDir cwd = true →
          filepath.isElem (strings.ToLower env.unicodeToLower name) = true →
          filepath.Join [cwd, "apps".toList, strings.ToLower env.unicodeToLower name] =
            cwd ++ "/apps/".toList ++ strings.ToLower env.unicodeToLower name ∧
          createdFiles events = (specAppFiles (strings.ToLower env.unicodeToLower name)).map
            (fun rel => cwd ++ "/apps/".toList ++ strings.ToLower env.unicodeToLower name ++
              "/".toList ++ rel)) := by
  have hctx : validateContext env "app".toList fs = none := by
    unfold validateContext
    rw [hcwd]
    simp [hroot]
  refine ⟨hctx, ?_, ?_⟩
  · intro hco ht
    exact createEntity_succeeds env fs _ name cwd hcwd hctx hco (fun _ => ht)
      (fun h => absurd rfl h)
  · intro fs' hok
    obtain ⟨-, hgen⟩ := createEntity_ok env _ name fs fs' hok
    unfold Generator.CreateEntity at hgen
    rw [hcwd] at hgen
    simp only [] at hgen
    rw [if_pos trivial] at hgen
    obtain ⟨events, hlog, hdir, hcreated, hall⟩ := Generator.createApp_ok env _ cwd fs fs' hgen
    have hout : Generator.createApp.outputDir (strings.ToLower env.unicodeToLower name) cwd =
        filepath.Join [cwd, "apps".toList, strings.ToLower env.unicodeToLower name] := by
      unfold Generator.createApp.outputDir
      rw [happs]
      rfl
    rw [hout] at hdir hcreated
    have hfiles : createdFiles events =
        (specAppFiles (strings.ToLower env.unicodeToLower name)).map
          (fun rel => filepath.Join
            [filepath.Join [cwd, "apps".toList, strings.ToLower env.unicodeToLower name],
              rel]) := by
      rw [hcreated]
      rfl
    refine ⟨events, hlog, hdir, hfiles, rfl, hall, ?_⟩
    intro hclean hn
    have h3 := filepath.Join_three cwd "apps".toList _ hclean (by decide)
      (filepath.allElems_of_isElem _ hn)
    have hlit : filepath.Join [cwd, "apps".toList, strings.ToLower env.unicodeToLower name] =
        cwd ++ "/apps/".toList ++ strings.ToLower env.unicodeToLower name := by
      rw [h3.1]; simp
    refine ⟨hlit, ?_⟩
    rw [hfiles]
    apply List.map_congr_left
    intro rel hrel
    have hj := filepath.Join_cleanDir _ rel h3.2 (specAppFiles_allElems _ hn rel hrel)
    rw [h3.1, hj.1]
    simp

theorem create_app_at_monorepo_root_witness :
    validateContext (sampleEnv "/repo".toList []) "app".toList (sampleRoot "/repo".toList) =
      none ∧
    ∃ events,
      (createEntity (sampleEnv "/repo".toList []) "app".toList "payments".toList
        (sampleRoot "/repo".toList)).2.log = [] ++ events ∧
      "/repo/apps/payments".toList ∈
        (createEntity (sampleEnv "/repo".toList []) "app".toList "payments".toList
          (sampleRoot "/repo".toList)).2.dirs ∧
      createdFiles events =
        [ "/repo/apps/payments/src/routes/v1/router.ts".toList,
          "/repo/apps/payments/src/index.ts".toList,
          "/repo/apps/payments/Dockerfile".toList,
          "/repo/apps/payments/eslint.config.js".toList,
          "/repo/apps/payments/package.json".toList,
          "/repo/apps/payments/sonar-project.properties".toList,
          "/repo/apps/payments/tsconfig.json".toList,
          "/repo/apps/payments/vitest.config.ts".toList,
          "/repo/apps/payments/src/controllers/payments/payments.controller.ts".toList,
          "/repo/apps/payments/src/services/payments/payments.service.ts".toList ] ∧
      ∀ f ∈ createdFiles events, f ∈
        (createEntity (sampleEnv "/repo".toList []) "app".toList "payments".toList
          (sampleRoot "/repo".toList)).2.fileNames :=
  have h := create_app_at_monorepo_root (sampleEnv "/repo".toList [])
    (sampleRoot "/repo".toList) "payments".toList "/repo".toList rfl (by decide) (by decide)
  match h.2.2 _ (by decide) with
  | ⟨events, hlog, _, _, _, hall, hlit⟩ =>
    ⟨h.1, events, hlog, by decide,
      by rw [(hlit (by decide) (by decide)).2]; rfl, hall⟩

/-- C7 fails as stated: at a monorepo root whose path contains `apps` the app
directory is `cwd/n`, not `cwd/apps/n`; and the name `Payments` gives the
directory `apps/payments`, not `apps/Payments`. -/
theorem create_app_other_directories :
    isMonorepoRoot (sampleRoot "/srv/webapps/mono".toList) "/srv/webapps/mono".toList = true ∧
    (createEntity (sampleEnv "/srv/webapps/mono".toList []) "app".toList "payments".toList
      (sampleRoot "/srv/webapps/mono".toList)).1 = none ∧
    (createdFiles (createEntity (sampleEnv "/srv/webapps/mono".toList []) "app".toList
      "payments".toList (sampleRoot "/srv/webapps/mono".toList)).2.log).take 3 =
      [ "/srv/webapps/mono/payments/src/routes/v1/router.ts".toList,
        "/srv/webapps/mono/payments/src/index.ts".toList,
        "/srv/webapps/mono/payments/Dockerfile".toList ] ∧
    "/srv/webapps/mono/apps/payments".toList ∉
      (createEntity (sampleEnv "/srv/webapps/mono".toList []) "app".toList "payments".toList
        (sampleRoot "/srv/webapps/mono".toList)).2.dirs ∧
    (createEntity (sampleEnv "/repo".toList []) "app".toList "Payments".toList
      (sampleRoot "/repo".toList)).1 = none ∧
    "/repo/apps/payments".toList ∈
      (createEntity (sampleEnv "/repo".toList []) "app".toList "Payments".toList
        (sampleRoot "/repo".toList)).2.dirs ∧
    "/repo/apps/Payments".toList ∉
      (createEntity (sampleEnv "/repo".toList []) "app".toList "Payments".toList
        (sampleRoot "/repo".toList)).2.dirs := by
  decide
